import Mathlib

/-!
Verification of the dtslint-runner worker-pool orchestrator.

A shallow embedding of the orchestrator in `index.ts` of dtslint-runner:
the crash-recovery state machine, the `--max_old_space_size` flag
extraction/removal, the shard partition of the task list, the final
failure report of `main`, and a small-step model of the event-driven
dispatcher `runWithListeningChildProcesses`.  Every definition is
translated from the TypeScript source; the theorems at the end settle
the specification claims against these definitions.
-/

namespace DtslintRunner

/-! ## Crash recovery state (source: `const enum CrashRecoveryState`) -/

inductive CrashRecoveryState where
  | Normal
  | Retry
  | RetryWithMoreMemory
  | Crashed
deriving DecidableEq, Repr

/-- The state update performed by `onClose` (source lines 395-412):
with crash recovery enabled, `Normal ↦ Retry`;
`Retry ↦ RetryWithMoreMemory` when `maxOldSpaceSize <
crashRecoveryMaxOldSpaceSize`, else `Crashed`; the `default` arm of the
`switch` sends both `RetryWithMoreMemory` and `Crashed` to `Crashed`.
With crash recovery disabled every close is `Crashed`. -/
def crashRecoveryTransition (crashRecovery : Bool)
    (maxOldSpaceSize crashRecoveryMaxOldSpaceSize : Int) :
    CrashRecoveryState → CrashRecoveryState := fun st =>
  if crashRecovery then
    match st with
    | .Normal => .Retry
    | .Retry =>
      if maxOldSpaceSize < crashRecoveryMaxOldSpaceSize then .RetryWithMoreMemory
      else .Crashed
    | .RetryWithMoreMemory => .Crashed
    | .Crashed => .Crashed
  else .Crashed

/-! ## The `--max_old_space_size` flag parser (source lines 560-601) -/

/-- Numeric value of a decimal digit character. -/
def digitVal (c : Char) : Nat := c.toNat - 48

/-- Value of a list of decimal digit characters, most significant first. -/
def decimalValue (ds : List Char) : Nat :=
  ds.foldl (fun acc c => acc * 10 + digitVal c) 0

/-- Decimal digit characters of a natural number (the JavaScript template
string rendering of a non-negative integer). -/
def natDigits (n : Nat) : List Char :=
  if n < 10 then [Char.ofNat (48 + n)]
  else natDigits (n / 10) ++ [Char.ofNat (48 + n % 10)]
  termination_by n
  decreasing_by exact Nat.div_lt_self (by omega) (by omega)

/-- Decimal rendering of a natural number, as JavaScript `${n}`. -/
def natToDecimal (n : Nat) : String := String.mk (natDigits n)

/-- Decimal rendering of an integer, as JavaScript `${n}`. -/
def intToDecimal (n : Int) : String :=
  if n < 0 then "-" ++ natToDecimal n.natAbs else natToDecimal n.natAbs

/-- Model of JavaScript `parseInt(s, 10)`: skip leading whitespace, an
optional sign, then the longest run of decimal digits; `none` models the
`NaN` result when no digit follows.  (`NaN` and `undefined` are
collapsed to `none`: every consumer of this value in the source treats
them identically, via `|| 0` truthiness.) -/
def jsParseInt (s : String) : Option Int :=
  let cs := s.toList.dropWhile (fun c => c.isWhitespace)
  match cs with
  | [] => none
  | c :: r =>
    if c == '-' then jsParseIntDigits r true
    else if c == '+' then jsParseIntDigits r false
    else jsParseIntDigits (c :: r) false
where
  jsParseIntDigits (cs : List Char) (neg : Bool) : Option Int :=
    let ds := cs.takeWhile (fun c => c.isDigit)
    if ds.isEmpty then none
    else some (if neg then -(decimalValue ds : Int) else (decimalValue ds : Int))

/-- `c` is `-` or `_`, the separators accepted by the flag regular
expression. -/
def isFlagSep (c : Char) : Bool := c == '-' || c == '_'

/-- Consume an exact literal prefix, returning the remainder. -/
def expectLit : List Char → List Char → Option (List Char)
  | [], cs => some cs
  | _ :: _, [] => none
  | l :: ls, c :: cs => if c = l then expectLit ls cs else none

/-- Consume one `[-_]` separator, returning the remainder. -/
def expectSep : List Char → Option (List Char)
  | [] => none
  | c :: cs => if isFlagSep c then some cs else none

/-- Model of `maxOldSpaceSizeRegExp =
/^--max[-_]old[-_]space[-_]size(?:$|=(\d+))/` applied to one argv entry:
`none` = no match, `some none` = matched with capture group 1 absent
(the bare flag), `some (some ds)` = matched with group 1 the maximal
digit run after `=` (the regular expression is not anchored at the end,
so trailing garbage after the digits is tolerated, exactly as in the
source).  The anchored literal/separator segments of the pattern are
consumed one by one. -/
def maxOldSpaceSizeRegExpExec (s : String) : Option (Option String) :=
  ((((((expectLit ['-', '-', 'm', 'a', 'x'] s.toList).bind expectSep).bind
      (expectLit ['o', 'l', 'd'])).bind expectSep).bind
      (expectLit ['s', 'p', 'a', 'c', 'e'])).bind expectSep).bind
      (expectLit ['s', 'i', 'z', 'e'])
    |>.bind fun rest =>
    match rest with
    | [] => some none
    | '=' :: r =>
      let ds := r.takeWhile (fun c => c.isDigit)
      if ds.isEmpty then none else some (some (String.mk ds))
    | _ => none

/-- Source: `interface MaxOldSpaceSizeArgument`.  `value = none` models
both `undefined` and `NaN` (observationally identical downstream). -/
structure MaxOldSpaceSizeArgument where
  index : Nat
  size : Nat
  value : Option Int
deriving DecidableEq, Repr

/-- The scanning loop of `getMaxOldSpaceSizeArg`: try the regular
expression on each element in turn; on the first match compute
`value` (from group 1, or from the *next* argv element if the group is
absent and the next element is truthy) and `size` (1 for the `=` form,
2 for the two-element form). -/
def mkMaxOldSpaceSizeArg (a : String) (rest : List String) (index : Nat) :
    MaxOldSpaceSizeArgument :=
  match maxOldSpaceSizeRegExpExec a with
  | some (some ds) => { index := index, size := 1, value := jsParseInt ds }
  | _ =>
    { index := index, size := 2,
      value := match rest with
               | nxt :: _ => if nxt == "" then none else jsParseInt nxt
               | [] => none }

def getMaxOldSpaceSizeArgAux : List String → Nat → Option MaxOldSpaceSizeArgument
  | [], _ => none
  | a :: rest, index =>
    if (maxOldSpaceSizeRegExpExec a).isSome then some (mkMaxOldSpaceSizeArg a rest index)
    else getMaxOldSpaceSizeArgAux rest (index + 1)

/-- Source: `getMaxOldSpaceSizeArg(argv)` (lines 568-580). -/
def getMaxOldSpaceSizeArg (argv : List String) : Option MaxOldSpaceSizeArgument :=
  getMaxOldSpaceSizeArgAux argv 0

/-- Source: `getMaxOldSpaceSize(argv)` = `arg && arg.value` (lines 582-585). -/
def getMaxOldSpaceSize (argv : List String) : Option Int :=
  (getMaxOldSpaceSizeArg argv).bind (fun arg => arg.value)

/-- JavaScript `argv.splice(index, size)`: remove `size` elements
starting at `index`. -/
def spliceOut (argv : List String) (index size : Nat) : List String :=
  argv.take index ++ argv.drop (index + size)

/-- A found argument's index is in range and its size is 1 or 2. -/
theorem getMaxOldSpaceSizeArgAux_found (l : List String) (i : Nat)
    (arg : MaxOldSpaceSizeArgument) (h : getMaxOldSpaceSizeArgAux l i = some arg) :
    i ≤ arg.index ∧ arg.index - i < l.length ∧ (arg.size = 1 ∨ arg.size = 2) := by
  induction l generalizing i with
  | nil => simp [getMaxOldSpaceSizeArgAux] at h
  | cons a rest ih =>
    rw [getMaxOldSpaceSizeArgAux] at h
    by_cases hm : (maxOldSpaceSizeRegExpExec a).isSome
    · rw [if_pos hm] at h
      simp only [Option.some.injEq] at h
      subst h
      unfold mkMaxOldSpaceSizeArg
      split <;> simp
    · rw [if_neg hm] at h
      obtain ⟨h1, h2, h3⟩ := ih (i + 1) h
      exact ⟨by omega, by simp only [List.length_cons]; omega, h3⟩

theorem spliceOut_length_lt (argv : List String) (index size : Nat)
    (hi : index < argv.length) (hs : 1 ≤ size) :
    (spliceOut argv index size).length < argv.length := by
  simp only [spliceOut, List.length_append, List.length_take, List.length_drop]
  omega

/-- Source: the `while` loop of `getExecArgvWithoutMaxOldSpaceSize`
(lines 589-601): repeatedly splice out the found flag occurrence until
no occurrence remains.  (The source computes this once from
`process.execArgv` and caches it; the cache is irrelevant to the
values computed.) -/
def getExecArgvWithoutMaxOldSpaceSize (execArgv : List String) : List String :=
  match h : getMaxOldSpaceSizeArg execArgv with
  | none => execArgv
  | some arg => getExecArgvWithoutMaxOldSpaceSize (spliceOut execArgv arg.index arg.size)
  termination_by execArgv.length
  decreasing_by
    have h2 := getMaxOldSpaceSizeArgAux_found execArgv 0 arg h
    exact spliceOut_length_lt execArgv arg.index arg.size (by omega) (by omega)

/-! ## Sharding (source line 107:
`allPackages.filter((_, i) => (i % sharding.count) === (sharding.id - 1))`) -/

/-- JavaScript `Array.prototype.filter` with the index callback: keep the
elements whose 0-based position satisfies `p`; `n` is the position of the
head of the remaining list. -/
def filterWithIndex (p : Nat → Bool) : List α → Nat → List α
  | [], _ => []
  | a :: l, n => if p n then a :: filterWithIndex p l (n + 1) else filterWithIndex p l (n + 1)

/-- The shard-selection callback `(i % count) === (id - 1)`.  In
JavaScript `i % 0` is `NaN`, which compares unequal to everything, hence
the `count = 0` guard; for `count ≥ 1` and the CLI-validated `id ≥ 1`
the `Nat` arithmetic agrees with the JavaScript number arithmetic. -/
def shardPred (id count : Nat) (i : Nat) : Bool :=
  if count = 0 then false else i % count == id - 1

/-- Source: `testedPackages` in `main`, the sharded branch. -/
def testedPackages (allPackages : List α) (id count : Nat) : List α :=
  filterWithIndex (shardPred id count) allPackages 0

/-! ## The final report of `main` (source lines 170-184 and 78-89) -/

/-- Return value of `main` once `allFailures` is collected: `0` when no
failures, else the failure count (source lines 170-183). -/
def mainReturnCode (allFailures : List (String × String)) : Nat :=
  if allFailures.length = 0 then 0 else allFailures.length

/-- The `=== ERRORS ===` enumeration printed by `main` before returning a
non-zero code: for each failure, its package path and its recorded error
text, then the summary line listing the failing paths (source lines
174-181). -/
def errorReportLines (allFailures : List (String × String)) : List String :=
  (allFailures.flatMap (fun pe => ["Error in " ++ pe.fst, pe.snd])) ++
    ["The following packages had errors: " ++
      String.intercalate ", " (allFailures.map Prod.fst)]

/-- The CLI wrapper (source lines 78-88): `main(...).then(code =>
process.exit(code)).catch(err => process.exit(1))`.  A normal return
exits with `main`'s code; a thrown (fatal orchestrator) error is caught
and exits with 1. -/
def processExitCode : Except String Nat → Nat
  | .ok code => code
  | .error _ => 1

/-- `handleCrash` as installed by `main` (source lines 150-165): only
the `Crashed` state records the task as permanently failed (appending
`(path, "Out of memory")` to `allFailures`); `Retry` and
`RetryWithMoreMemory` merely log. -/
def handleCrashMain (path : String) (state : CrashRecoveryState)
    (allFailures : List (String × String)) : List (String × String) :=
  match state with
  | .Crashed => allFailures ++ [(path, "Out of memory")]
  | _ => allFailures

/-! ## The full `onClose` reaction of one slot (source lines 388-442) -/

/-- What `onClose` does after updating the recovery state. -/
inductive CloseAction where
  /-- `restartChild(resumeTask, process.execArgv)`: restart with identical
  startup flags and resend the same task. -/
  | resumeSameArgs (execArgv : List String)
  /-- `restartChild(resumeTask, [...getExecArgvWithoutMaxOldSpaceSize(),
  `--max_old_space_size=...`])`: restart with the heap flag removed and the
  ceiling appended, and resend the same task. -/
  | resumeWithMoreMemory (execArgv : List String)
  /-- `stopChild(/*done*/ true)`: no tasks remain; retire the slot. -/
  | stopDone
  /-- `restartChild(nextTask, process.execArgv)`: move on to the next task. -/
  | advanceNextTask (execArgv : List String)
  /-- the `assert.fail` default arm (unreachable). -/
  | unreachableAssertFail
deriving DecidableEq, Repr

/-- Result of one `onClose` invocation: the state passed to the
`handleCrash` observer, the slot's recovery state once the handler
returns (the `Crashed` arm resets it to `Normal` before moving on), and
the action taken. -/
structure CloseReaction where
  reported : CrashRecoveryState
  finalState : CrashRecoveryState
  action : CloseAction
deriving DecidableEq, Repr

/-- The body of `onClose` (source lines 388-442) for a slot whose
current recovery state is `st`.  `maxOldSpaceSize` is
`getMaxOldSpaceSize(process.execArgv) || 0` captured at run start (line
355); since every restart before a memory upgrade reuses
`process.execArgv`, it is the worker's currently configured heap flag at
that point.  `inputsExhausted` is `inputIndex === inputs.length`. -/
def onCloseReaction (crashRecovery : Bool) (execArgv : List String)
    (crashRecoveryMaxOldSpaceSize : Int) (inputsExhausted : Bool)
    (st : CrashRecoveryState) : CloseReaction :=
  let maxOldSpaceSize : Int := (getMaxOldSpaceSize execArgv).getD 0
  match crashRecoveryTransition crashRecovery maxOldSpaceSize
      crashRecoveryMaxOldSpaceSize st with
  | .Retry => ⟨.Retry, .Retry, .resumeSameArgs execArgv⟩
  | .RetryWithMoreMemory =>
    ⟨.RetryWithMoreMemory, .RetryWithMoreMemory,
      .resumeWithMoreMemory (getExecArgvWithoutMaxOldSpaceSize execArgv ++
        ["--max_old_space_size=" ++ intToDecimal crashRecoveryMaxOldSpaceSize])⟩
  | .Crashed =>
    ⟨.Crashed, .Normal, if inputsExhausted then .stopDone else .advanceNextTask execArgv⟩
  | .Normal => ⟨.Normal, .Normal, .unreachableAssertFail⟩

/-! ## Small-step model of `runWithListeningChildProcesses` (lines 345-558)

The coordinator is single-threaded and event-driven (§5 of the spec):
it reacts to one child-process event at a time.  We model one run as a
fold of a step function over an arbitrary list of events.  Task
payloads are identified by their index into `inputs`; per the worker
protocol (§6) a worker emits exactly one outcome message per task it
was sent, so a `message` event accounts for the slot's current task.
A `close` event is an `onClose` invocation: the child's channel closed
without a result (the per-child at-most-once delivery guard of
`startChild` is modelled separately below).  Each event carries a
`spawnFails` flag: if handling it requires `fork`ing a replacement
child, that `fork` throws, which exercises the `fail` path. -/

/-- How one task entered the result set. -/
inductive TaskResult where
  /-- a structured outcome message, consumed by `handleOutput`
  (`ok` = the status was `"OK"`). -/
  | output (ok : Bool)
  /-- crash-recovery exhausted: `handleCrash` was invoked with `Crashed`. -/
  | crashed
deriving DecidableEq, Repr

/-- One pool slot: `alive` models `runningChildren.has(child)` together
with the listeners being attached; `currentTask` is the index of
`currentInput` (meaningful only while `alive`). -/
structure Slot where
  alive : Bool
  recovery : CrashRecoveryState
  currentTask : Nat
deriving DecidableEq, Repr

/-- The coordinator state of `runWithListeningChildProcesses`. -/
structure RunState where
  /-- `inputs.length` -/
  total : Nat
  /-- the shared cursor `inputIndex` -/
  inputIndex : Nat
  /-- `processesLeft` -/
  processesLeft : Nat
  /-- the per-slot closure states, one per pool member -/
  slots : List Slot
  /-- the outcomes accounted so far, in arrival order: `handleOutput`
  invocations and `Crashed` `handleCrash` invocations -/
  results : List (Nat × TaskResult)
  /-- `resolve()` has been called -/
  resolved : Bool
  /-- `rejected` -/
  rejected : Bool
  /-- number of successful `fork` calls so far -/
  spawnCount : Nat
  /-- number of `reject(...)` calls so far -/
  errorCount : Nat
deriving DecidableEq, Repr

/-- The options the step function consults: `crashRecovery`, and the
values compared at line 403 — `maxOldSpaceSize =
getMaxOldSpaceSize(process.execArgv) || 0` (captured once, line 355)
and `crashRecoveryMaxOldSpaceSize`. -/
structure RunConfig where
  crashRecovery : Bool
  maxOldSpaceSize : Int
  crashRecoveryMaxOldSpaceSize : Int
deriving DecidableEq, Repr

/-- `fail(err)` (lines 542-556): if not yet rejected, mark rejected,
kill every running child and remove its listeners, and reject the
promise (exactly one `reject` call). -/
def failRun (s : RunState) : RunState :=
  if s.rejected then s
  else
    { s with rejected := true,
             slots := s.slots.map (fun sl => { sl with alive := false }),
             errorCount := s.errorCount + 1 }

/-- `stopChild(/*done*/ true)` for slot `i` (lines 488-503): decrement
`processesLeft`, resolve when it reaches zero, and retire the child. -/
def stopChildDone (s : RunState) (i : Nat) : RunState :=
  match s.slots[i]? with
  | none => s
  | some sl =>
    let s := { s with slots := s.slots.set i { sl with alive := false },
                      processesLeft := s.processesLeft - 1 }
    if s.processesLeft = 0 then { s with resolved := true } else s

/-- `onMessage` for slot `i` (lines 367-386): reset the recovery state,
account the outcome via `handleOutput`, then either retire the slot
(no inputs left), restart the child and send the next task (a retry
attempt just succeeded), or send the next task to the same child.
No-op if the slot has no live child. -/
def stepMessage (s : RunState) (i : Nat) (ok : Bool) (spawnFails : Bool) : RunState :=
  match s.slots[i]? with
  | none => s
  | some sl =>
    if sl.alive then
      let oldState := sl.recovery
      let sl1 : Slot := { sl with recovery := .Normal }
      let s1 := { s with slots := s.slots.set i sl1,
                         results := s.results ++ [(sl.currentTask, TaskResult.output ok)] }
      if s1.inputIndex = s1.total then
        stopChildDone s1 i
      else if oldState != CrashRecoveryState.Normal then
        -- restartChild(nextTask, process.execArgv)
        let s2 := { s1 with slots := s1.slots.set i { sl1 with alive := false } }
        if spawnFails then failRun s2
        else
          { s2 with slots := s2.slots.set i ({ sl1 with alive := true, currentTask := s2.inputIndex }),
                    spawnCount := s2.spawnCount + 1,
                    inputIndex := s2.inputIndex + 1 }
      else
        { s1 with slots := s1.slots.set i ({ sl1 with currentTask := s1.inputIndex }),
                  inputIndex := s1.inputIndex + 1 }
    else s

/-- `onClose` for slot `i` (lines 388-442): step the crash-recovery
state machine, then resend the same task after a restart (`Retry`,
`RetryWithMoreMemory`), or — `Crashed` — account the task as failed
(`handleCrash` pushes it onto `allFailures`), reset to `Normal`, and
retire the slot or move on to the next task.  No-op when already
rejected or the child is not running (line 389). -/
def stepClose (cfg : RunConfig) (s : RunState) (i : Nat) (spawnFails : Bool) : RunState :=
  match s.slots[i]? with
  | none => s
  | some sl =>
    if s.rejected || !sl.alive then s
    else
      match crashRecoveryTransition cfg.crashRecovery cfg.maxOldSpaceSize
          cfg.crashRecoveryMaxOldSpaceSize sl.recovery with
      | .Retry =>
        let s1 := { s with slots := s.slots.set i { sl with recovery := .Retry, alive := false } }
        if spawnFails then failRun s1
        else { s1 with slots := s1.slots.set i { sl with recovery := .Retry, alive := true },
                       spawnCount := s1.spawnCount + 1 }
      | .RetryWithMoreMemory =>
        let s1 := { s with slots := s.slots.set i ({ sl with recovery := .RetryWithMoreMemory, alive := false }) }
        if spawnFails then failRun s1
        else { s1 with slots := s1.slots.set i ({ sl with recovery := .RetryWithMoreMemory, alive := true }),
                       spawnCount := s1.spawnCount + 1 }
      | .Crashed =>
        let s1 := { s with results := s.results ++ [(sl.currentTask, TaskResult.crashed)] }
        if s1.inputIndex = s1.total then
          stopChildDone { s1 with slots := s1.slots.set i { sl with recovery := .Normal } } i
        else
          let s2 := { s1 with slots := s1.slots.set i ({ sl with recovery := .Normal, alive := false }) }
          if spawnFails then failRun s2
          else
            { s2 with slots := s2.slots.set i ({ sl with recovery := .Normal, alive := true, currentTask := s2.inputIndex }),
                      spawnCount := s2.spawnCount + 1,
                      inputIndex := s2.inputIndex + 1 }
      | .Normal => failRun s  -- assert.fail → onError → fail (unreachable)

/-- A child-process event as seen by the single-threaded coordinator. -/
inductive Event where
  | message (i : Nat) (ok : Bool) (spawnFails : Bool)
  | close (i : Nat) (spawnFails : Bool)
deriving DecidableEq, Repr

def step (cfg : RunConfig) (s : RunState) : Event → RunState
  | .message i ok spawnFails => stepMessage s i ok spawnFails
  | .close i spawnFails => stepClose cfg s i spawnFails

def run (cfg : RunConfig) (s : RunState) : List Event → RunState
  | [] => s
  | e :: es => run cfg (step cfg s e) es

/-- The startup loop (lines 351-360 and 539): slot `i` is started with
the next task if inputs remain (`startChild(nextTask, ...)`), otherwise
it is skipped and immediately counted off `processesLeft`. -/
def initStep (s : RunState) (_i : Nat) : RunState :=
  if s.inputIndex = s.total then
    { s with processesLeft := s.processesLeft - 1,
             slots := s.slots ++ [{ alive := false, recovery := .Normal, currentTask := 0 }] }
  else
    { s with slots := s.slots ++
               [{ alive := true, recovery := .Normal, currentTask := s.inputIndex }],
             inputIndex := s.inputIndex + 1,
             spawnCount := s.spawnCount + 1 }

/-- The coordinator state after the startup loop, for `total` tasks and
`nProcesses` pool slots. -/
def initState (total nProcesses : Nat) : RunState :=
  (List.range nProcesses).foldl initStep
    { total := total, inputIndex := 0, processesLeft := nProcesses, slots := [],
      results := [], resolved := false, rejected := false, spawnCount := 0,
      errorCount := 0 }

/-- The tasks currently in flight: the current task of every slot with a
live child. -/
def aliveTasks (s : RunState) : List Nat :=
  s.slots.filterMap (fun sl => if sl.alive then some sl.currentTask else none)

/-- The tasks not yet handed to any slot. -/
def remainingTasks (s : RunState) : List Nat :=
  List.range' s.inputIndex (s.total - s.inputIndex)

/-! ## Per-child at-most-once `onClose` delivery (source lines 459-486)

One slot spawns a sequence of children over its lifetime; `child`
always points at the latest.  For each spawned child, `startChild`
installs a fresh `closed` flag shared by its `close` listener and by
the delayed `setTimeout(onChildClosed)` scheduled from its `disconnect`
and `exit` listeners; `onChildClosed` invokes `onClose` only when the
flag is still clear *and* the child is still the slot's current one
(`child === thisChild`).  We model one slot's children by spawn order
and let raw lifecycle events and timer firings arrive adversarially,
with the handler's decision to replace the child equally adversarial. -/

/-- The per-child listener state of one `startChild` invocation. -/
structure ChildRec where
  /-- the `closed` flag of this child's `startChild` closure -/
  closed : Bool
  /-- `removeAllListeners()` has been called on this child -/
  removed : Bool
  /-- how many times `onClose` has run on behalf of this child -/
  onCloseCalls : Nat
deriving DecidableEq, Repr

/-- One slot's history of children.  `current` is the index (in spawn
order) of the child the slot variable `child` points at;
`pendingTimeouts` are the `setTimeout(onChildClosed, 1000)` callbacks
scheduled but not yet fired, tagged by child. -/
structure SlotChildren where
  children : List ChildRec
  current : Nat
  pendingTimeouts : List Nat
deriving DecidableEq, Repr

/-- Raw lifecycle traffic for one slot, scheduled adversarially.
`handlerRestarts` = during the resulting `onClose` (if any) the
coordinator replaces the child (`restartChild`); `coordinatorRestart`
models a replacement triggered from `onMessage` instead. -/
inductive ChildEvent where
  | closeEvt (cid : Nat) (handlerRestarts : Bool)
  | disconnectOrExit (cid : Nat)
  | timerFires (k : Nat) (handlerRestarts : Bool)
  | coordinatorRestart
deriving DecidableEq, Repr

/-- `onChildClosed` for child `cid` (lines 462-468): if this child has
not yet been treated as closed and is still the slot's current child,
set `closed` and run `onClose` once; the handler may then replace the
child (remove the old child's listeners, spawn a successor, repoint
`child`). -/
def onChildClosed (st : SlotChildren) (cid : Nat) (handlerRestarts : Bool) : SlotChildren :=
  match st.children[cid]? with
  | none => st
  | some c =>
    if !c.closed && st.current == cid then
      let st1 := { st with children := st.children.set cid ({ c with closed := true, onCloseCalls := c.onCloseCalls + 1 }) }
      if handlerRestarts then
        { st1 with children := (st1.children.map (fun d => { d with removed := true })) ++ [{ closed := false, removed := false, onCloseCalls := 0 }],
                   current := st1.children.length }
      else st1
    else st

/-- One scheduler step for the lifecycle model: a `close` listener fires
(only if the child's listeners are still installed); a `disconnect` or
`exit` listener fires, scheduling the delayed `onChildClosed` if the
guard holds at scheduling time (lines 469-476); a scheduled timeout
fires (timeouts survive `removeAllListeners`, so no `removed` check —
`onChildClosed` re-checks its own guard); or the coordinator replaces
the child from outside `onClose`. -/
def childStep (st : SlotChildren) : ChildEvent → SlotChildren
  | .closeEvt cid handlerRestarts =>
    match st.children[cid]? with
    | none => st
    | some c => if c.removed then st else onChildClosed st cid handlerRestarts
  | .disconnectOrExit cid =>
    match st.children[cid]? with
    | none => st
    | some c =>
      if c.removed then st
      else if !c.closed && st.current == cid then
        { st with pendingTimeouts := st.pendingTimeouts ++ [cid] }
      else st
  | .timerFires k handlerRestarts =>
    match st.pendingTimeouts[k]? with
    | none => st
    | some cid =>
      onChildClosed { st with pendingTimeouts := st.pendingTimeouts.eraseIdx k }
        cid handlerRestarts
  | .coordinatorRestart =>
    { st with children := (st.children.map (fun d => { d with removed := true })) ++ [{ closed := false, removed := false, onCloseCalls := 0 }],
              current := st.children.length }

def childRun (st : SlotChildren) : List ChildEvent → SlotChildren
  | [] => st
  | e :: es => childRun (childStep st e) es

/-- A freshly started slot: one child, listeners installed. -/
def initSlotChildren : SlotChildren :=
  { children := [{ closed := false, removed := false, onCloseCalls := 0 }],
    current := 0, pendingTimeouts := [] }

/-! ## Helper lemmas -/

/-- `onMessage` always leaves the slot's recovery state `Normal`
(line 370 sets it before any dispatching). -/
theorem stepMessage_recovery_normal (s : RunState) (i : Nat) (ok spawnFails : Bool)
    (sl : Slot) (hsl : s.slots[i]? = some sl) (ha : sl.alive = true)
    (sl2 : Slot) (h2 : (stepMessage s i ok spawnFails).slots[i]? = some sl2) :
    sl2.recovery = CrashRecoveryState.Normal := by
  have hlen : i < s.slots.length := (List.getElem?_eq_some_iff.mp hsl).1
  simp only [stepMessage, stopChildDone, failRun, hsl, ha, if_true,
    List.length_set, List.getElem?_set_self, hlen, List.getElem?_map,
    Option.map_some] at h2
  repeat' split at h2
  all_goals simp_all [List.getElem?_set_self, List.length_set, List.length_map]
  all_goals rw [← h2]



/-- `filterWithIndex` yields a sublist: relative order is preserved and
every kept element comes from the input. -/
theorem filterWithIndex_sublist (p : Nat → Bool) :
    ∀ (l : List α) (n : Nat), (filterWithIndex p l n).Sublist l := by
  intro l
  induction l with
  | nil => intro n; simp [filterWithIndex]
  | cons a l ih =>
    intro n
    rw [filterWithIndex]
    split
    · exact (ih (n + 1)).cons₂ a
    · exact (ih (n + 1)).cons a

/-- `filterWithIndex` is the positions-based filter: it keeps exactly the
elements whose position (as enumerated from `n`) satisfies `p`. -/
theorem filterWithIndex_eq_enumFrom (p : Nat → Bool) :
    ∀ (l : List α) (n : Nat),
      filterWithIndex p l n =
        ((List.enumFrom n l).filter (fun q => p q.fst)).map Prod.snd := by
  intro l
  induction l with
  | nil => intro n; simp [filterWithIndex]
  | cons a l ih =>
    intro n
    rw [filterWithIndex, List.enumFrom_cons]
    rw [List.filter_cons]
    split <;> simp_all [ih (n + 1)]

/-- Two leading segments of an append may be swapped up to permutation. -/
theorem perm_middle_swap (x y z : List α) : (x ++ (y ++ z)).Perm (y ++ (x ++ z)) := by
  rw [← List.append_assoc, ← List.append_assoc]
  exact List.perm_append_comm.append_right z

/-- Splitting off one element shared by exactly the shards whose residue
is `r`: joining lists of the shape `(if r = j then [a] else []) ++ g j`
permutes to `count r` copies of `a` in front of the join of the `g j`. -/
theorem join_map_split_perm (a : α) (r : Nat) (g : Nat → List α) :
    ∀ (is : List Nat),
      ((is.map (fun j => (if r = j then [a] else []) ++ g j)).flatten).Perm
        (List.replicate (is.count r) a ++ (is.map g).flatten) := by
  intro is
  induction is with
  | nil => simp
  | cons i is ih =>
    simp only [List.map_cons, List.flatten_cons, List.count_cons]
    by_cases hri : r = i
    · subst hri
      simp only [if_pos rfl, beq_self_eq_true, if_true, List.singleton_append,
        List.cons_append, List.append_assoc, List.replicate_succ]
      refine List.Perm.cons a ?_
      exact (ih.append_left (g r)).trans (perm_middle_swap (g r) _ _)
    · have hbeq : (i == r) = false := by
        simp only [beq_eq_false_iff_ne, ne_eq]
        exact fun hc => hri hc.symm
      simp only [if_neg hri, hbeq, List.nil_append, List.append_assoc,
        Bool.false_eq_true, if_false, Nat.add_zero]
      exact (ih.append_left (g i)).trans (perm_middle_swap (g i) _ _)

/-- Joining all `count` shards of a list is a permutation of the list. -/
theorem shards_join_perm (count : Nat) (hc : count ≠ 0) :
    ∀ (l : List α) (n : Nat),
      (((List.range count).map
        (fun j => filterWithIndex (shardPred (j + 1) count) l n)).flatten).Perm l := by
  intro l
  induction l with
  | nil =>
    intro n
    simp [filterWithIndex]
  | cons a l ih =>
    intro n
    have hsplit : ∀ j : Nat,
        filterWithIndex (shardPred (j + 1) count) (a :: l) n =
          (if n % count = j then [a] else []) ++
            filterWithIndex (shardPred (j + 1) count) l (n + 1) := by
      intro j
      rw [filterWithIndex]
      by_cases hj : n % count = j
      · rw [if_pos (by simp [shardPred, hc, hj]), if_pos hj]
        simp
      · rw [if_neg (by simp [shardPred, hc, hj]), if_neg hj]
        simp
    rw [List.map_congr_left (fun j _ => hsplit j)]
    have hperm := join_map_split_perm a (n % count)
      (fun j => filterWithIndex (shardPred (j + 1) count) l (n + 1)) (List.range count)
    refine hperm.trans ?_
    have hcount : (List.range count).count (n % count) = 1 :=
      List.count_eq_one_of_mem (List.nodup_range count)
        (List.mem_range.mpr (Nat.mod_lt n (Nat.pos_of_ne_zero hc)))
    rw [hcount]
    simpa using (ih (n + 1)).cons a

/-- A shard is non-empty as soon as the input holds an element at a
position with the shard's residue. -/
theorem filterWithIndex_ne_nil (p : Nat → Bool) :
    ∀ (l : List α) (n i : Nat), i < l.length → p (n + i) = true →
      filterWithIndex p l n ≠ [] := by
  intro l
  induction l with
  | nil => intro n i hi _; simp at hi
  | cons a l ih =>
    intro n i hi hp
    rw [filterWithIndex]
    by_cases hn : p n
    · rw [if_pos hn]; simp
    · rw [if_neg hn]
      match i with
      | 0 => simp only [Nat.add_zero] at hp; exact absurd hp (by simpa using hn)
      | i + 1 =>
        exact ih (n + 1) i (by simpa using Nat.lt_of_succ_lt_succ (by simpa using hi))
          (by simpa [Nat.add_assoc, Nat.add_comm, Nat.add_left_comm] using hp)


/-- The digit characters produced by `natDigits` behave as digits and are
neither signs nor whitespace. -/
theorem char_ofNat_digit_props (d : Nat) (hd : d < 10) :
    (Char.ofNat (48 + d)).isDigit = true ∧
    ((Char.ofNat (48 + d)) == '-') = false ∧
    ((Char.ofNat (48 + d)) == '+') = false ∧
    (Char.ofNat (48 + d)).isWhitespace = false := by
  interval_cases d <;> exact ⟨by decide, by decide, by decide, by decide⟩

theorem digitVal_char_ofNat (d : Nat) (hd : d < 10) :
    digitVal (Char.ofNat (48 + d)) = d := by
  interval_cases d <;> decide

theorem natDigits_ne_nil (n : Nat) : natDigits n ≠ [] := by
  rw [natDigits]
  split <;> simp

theorem natDigits_shape (n : Nat) :
    ∀ c ∈ natDigits n, ∃ d, d < 10 ∧ c = Char.ofNat (48 + d) := by
  induction n using Nat.strong_induction_on with
  | _ n ih =>
    rw [natDigits]
    split
    · next h =>
      intro c hc
      simp only [List.mem_singleton] at hc
      exact ⟨n, h, hc⟩
    · next h =>
      intro c hc
      rcases List.mem_append.mp hc with h1 | h2
      · exact ih (n / 10) (Nat.div_lt_self (by omega) (by omega)) c h1
      · simp only [List.mem_singleton] at h2
        exact ⟨n % 10, Nat.mod_lt n (by omega), h2⟩

theorem natDigits_all_digit (n : Nat) : ∀ x ∈ natDigits n, x.isDigit = true := by
  intro x hx
  obtain ⟨e, he, hxe⟩ := natDigits_shape n x hx
  rw [hxe]
  exact (char_ofNat_digit_props e he).1

theorem decimalValue_append_digit (ds : List Char) (c : Char) :
    decimalValue (ds ++ [c]) = decimalValue ds * 10 + digitVal c := by
  rw [decimalValue, decimalValue, List.foldl_append]
  rfl

theorem decimalValue_natDigits (n : Nat) : decimalValue (natDigits n) = n := by
  induction n using Nat.strong_induction_on with
  | _ n ih =>
    rw [natDigits]
    split
    · next h =>
      rw [decimalValue]
      simp only [List.foldl_cons, List.foldl_nil, Nat.zero_mul, Nat.zero_add]
      exact digitVal_char_ofNat n h
    · next h =>
      rw [decimalValue_append_digit,
        ih (n / 10) (Nat.div_lt_self (by omega) (by omega)),
        digitVal_char_ofNat (n % 10) (Nat.mod_lt n (by omega))]
      omega

theorem natToDecimal_toList (n : Nat) : (natToDecimal n).toList = natDigits n := rfl

theorem natToDecimal_ne_empty (n : Nat) : (natToDecimal n == "") = false := by
  apply beq_eq_false_iff_ne.mpr
  intro h
  exact natDigits_ne_nil n (congrArg String.toList h)

/-- JavaScript `parseInt` reads back the decimal rendering of a natural
number. -/
theorem jsParseInt_natToDecimal (n : Nat) : jsParseInt (natToDecimal n) = some (n : Int) := by
  cases hnd : natDigits n with
  | nil => exact absurd hnd (natDigits_ne_nil n)
  | cons c rest =>
    have hc : c ∈ natDigits n := by rw [hnd]; simp
    obtain ⟨d, hd, hcd⟩ := natDigits_shape n c hc
    obtain ⟨hdig, hdash, hplus, hws⟩ := char_ofNat_digit_props d hd
    rw [← hcd] at hdig hdash hplus hws
    rw [jsParseInt]
    simp only [natToDecimal_toList, hnd, List.dropWhile_cons, hws, Bool.false_eq_true,
      if_false, hdash, hplus]
    rw [jsParseInt.jsParseIntDigits]
    simp only [← hnd, List.takeWhile_eq_self_iff.mpr (natDigits_all_digit n)]
    rw [List.isEmpty_eq_false_iff_exists_mem.mpr ⟨c, hc⟩]
    simp only [Bool.false_eq_true, if_false, decimalValue_natDigits]

/-- The `=`-form flag string matches the regular expression, capturing
the rendered digits. -/
theorem regExp_flag_eq_form (n : Nat) :
    maxOldSpaceSizeRegExpExec ("--max_old_space_size=" ++ natToDecimal n) =
      some (some (natToDecimal n)) := by
  have htl : ("--max_old_space_size=" ++ natToDecimal n).toList =
      '-' :: '-' :: 'm' :: 'a' :: 'x' :: '_' :: 'o' :: 'l' :: 'd' :: '_' ::
      's' :: 'p' :: 'a' :: 'c' :: 'e' :: '_' :: 's' :: 'i' :: 'z' :: 'e' ::
      '=' :: natDigits n := by
    have h1 : ("--max_old_space_size=" ++ natToDecimal n).toList =
        "--max_old_space_size=".toList ++ natDigits n := by
      rw [← natToDecimal_toList n]
      exact String.data_append _ _
    rw [h1]
    rfl
  rw [maxOldSpaceSizeRegExpExec, htl]
  simp [expectLit, expectSep, isFlagSep,
    List.takeWhile_eq_self_iff.mpr (natDigits_all_digit n),
    List.isEmpty_iff, natDigits_ne_nil n, natToDecimal]
  have hpos : 0 < (natDigits n).length := List.length_pos.mpr (natDigits_ne_nil n)
  exact ⟨hpos, natDigits_all_digit n _ (List.getElem_mem hpos)⟩

set_option maxHeartbeats 1000000 in
theorem regExp_bare_flag :
    maxOldSpaceSizeRegExpExec "--max_old_space_size" = some none := by decide

/-- Scanning skips a prefix of non-matching entries. -/
theorem getMaxOldSpaceSizeArgAux_append_none (pre : List String)
    (hpre : ∀ s ∈ pre, maxOldSpaceSizeRegExpExec s = none) :
    ∀ (rest : List String) (k : Nat),
      getMaxOldSpaceSizeArgAux (pre ++ rest) k =
        getMaxOldSpaceSizeArgAux rest (k + pre.length) := by
  induction pre with
  | nil => intro rest k; simp
  | cons a pre ih =>
    intro rest k
    rw [List.cons_append, getMaxOldSpaceSizeArgAux, hpre a (by simp)]
    simp only [Option.isSome_none, Bool.false_eq_true, if_false]
    rw [ih (fun s hs => hpre s (by simp [hs])) rest (k + 1)]
    congr 1
    simp only [List.length_cons]
    omega

/-- The scan finds nothing exactly when no entry matches. -/
theorem getMaxOldSpaceSizeArgAux_eq_none_iff :
    ∀ (l : List String) (k : Nat),
      getMaxOldSpaceSizeArgAux l k = none ↔
        ∀ s ∈ l, maxOldSpaceSizeRegExpExec s = none := by
  intro l
  induction l with
  | nil => intro k; simp [getMaxOldSpaceSizeArgAux]
  | cons a l ih =>
    intro k
    rw [getMaxOldSpaceSizeArgAux]
    by_cases hm : (maxOldSpaceSizeRegExpExec a).isSome
    · rw [if_pos hm]
      constructor
      · intro h; cases h
      · intro h
        rw [h a (by simp)] at hm
        cases hm
    · rw [if_neg hm]
      rw [ih (k + 1)]
      constructor
      · intro h s hs
        rcases List.mem_cons.mp hs with rfl | hs2
        · exact Option.not_isSome_iff_eq_none.mp hm
        · exact h s hs2
      · intro h s hs
        exact h s (by simp [hs])

/-- Extraction of the `--flag=N` form after a clean prefix. -/
theorem getMaxOldSpaceSizeArg_eq_form (pre : List String)
    (hpre : ∀ s ∈ pre, maxOldSpaceSizeRegExpExec s = none) (n : Nat) (post : List String) :
    getMaxOldSpaceSizeArg (pre ++ ("--max_old_space_size=" ++ natToDecimal n) :: post) =
      some ⟨pre.length, 1, some (n : Int)⟩ := by
  rw [getMaxOldSpaceSizeArg, getMaxOldSpaceSizeArgAux_append_none pre hpre,
    getMaxOldSpaceSizeArgAux, mkMaxOldSpaceSizeArg.eq_def, regExp_flag_eq_form n]
  simp only [Option.isSome_some, if_true, jsParseInt_natToDecimal, Nat.zero_add]

/-- Extraction of the two-element `--flag N` form after a clean prefix. -/
theorem getMaxOldSpaceSizeArg_two_form (pre : List String)
    (hpre : ∀ s ∈ pre, maxOldSpaceSizeRegExpExec s = none) (n : Nat) (post : List String) :
    getMaxOldSpaceSizeArg (pre ++ "--max_old_space_size" :: natToDecimal n :: post) =
      some ⟨pre.length, 2, some (n : Int)⟩ := by
  rw [getMaxOldSpaceSizeArg, getMaxOldSpaceSizeArgAux_append_none pre hpre,
    getMaxOldSpaceSizeArgAux, mkMaxOldSpaceSizeArg.eq_def, regExp_bare_flag]
  simp only [Option.isSome_some, if_true, natToDecimal_ne_empty, Bool.false_eq_true,
    if_false, jsParseInt_natToDecimal, Nat.zero_add]

/-- If the scan finds nothing the removal loop is the identity. -/
theorem remove_of_none (argv : List String) (h : getMaxOldSpaceSizeArg argv = none) :
    getExecArgvWithoutMaxOldSpaceSize argv = argv := by
  rw [getExecArgvWithoutMaxOldSpaceSize]
  split
  · rfl
  · next arg heq => rw [h] at heq; cases heq


/-- The removal loop leaves no matching entry behind. -/
theorem remove_no_match (argv : List String) :
    getMaxOldSpaceSizeArg (getExecArgvWithoutMaxOldSpaceSize argv) = none := by
  rw [getExecArgvWithoutMaxOldSpaceSize]
  split
  · next heq => exact heq
  · next arg heq => exact remove_no_match _
  termination_by argv.length
  decreasing_by
    rename_i heq
    obtain ⟨h2a, h2b, h2c⟩ := getMaxOldSpaceSizeArgAux_found argv 0 _ heq
    refine spliceOut_length_lt argv _ _ ?_ ?_ <;> omega

/-- Removal is idempotent. -/
theorem remove_idem (argv : List String) :
    getExecArgvWithoutMaxOldSpaceSize (getExecArgvWithoutMaxOldSpaceSize argv) =
      getExecArgvWithoutMaxOldSpaceSize argv :=
  remove_of_none _ (remove_no_match argv)

/-- Removing the single `--flag=N` occurrence yields the surrounding
elements. -/
theorem remove_single_eq_form (pre post : List String)
    (hpre : ∀ s ∈ pre, maxOldSpaceSizeRegExpExec s = none)
    (hpost : ∀ s ∈ post, maxOldSpaceSizeRegExpExec s = none) (n : Nat) :
    getExecArgvWithoutMaxOldSpaceSize
      (pre ++ ("--max_old_space_size=" ++ natToDecimal n) :: post) = pre ++ post := by
  rw [getExecArgvWithoutMaxOldSpaceSize]
  split
  · next heq =>
    rw [getMaxOldSpaceSizeArg_eq_form pre hpre n post] at heq
    cases heq
  · next arg heq =>
    rw [getMaxOldSpaceSizeArg_eq_form pre hpre n post] at heq
    cases heq
    have ht : (pre ++ ("--max_old_space_size=" ++ natToDecimal n) :: post).take pre.length =
        pre := List.take_left pre (("--max_old_space_size=" ++ natToDecimal n) :: post)
    have hd : (pre ++ ("--max_old_space_size=" ++ natToDecimal n) :: post).drop
        (pre.length + 1) = post := by
      have h1 : pre ++ ("--max_old_space_size=" ++ natToDecimal n) :: post =
          (pre ++ ["--max_old_space_size=" ++ natToDecimal n]) ++ post := by simp
      have h2 : pre.length + 1 =
          (pre ++ ["--max_old_space_size=" ++ natToDecimal n]).length := by simp
      rw [h1, h2, List.drop_left]
    rw [spliceOut, ht, hd]
    exact remove_of_none _ ((getMaxOldSpaceSizeArgAux_eq_none_iff (pre ++ post) 0).mpr
      (fun s hs => (List.mem_append.mp hs).elim (hpre s) (hpost s)))

/-- Removing the single two-element `--flag N` occurrence also removes
the numeral element. -/
theorem remove_single_two_form (pre post : List String)
    (hpre : ∀ s ∈ pre, maxOldSpaceSizeRegExpExec s = none)
    (hpost : ∀ s ∈ post, maxOldSpaceSizeRegExpExec s = none) (n : Nat) :
    getExecArgvWithoutMaxOldSpaceSize
      (pre ++ "--max_old_space_size" :: natToDecimal n :: post) = pre ++ post := by
  rw [getExecArgvWithoutMaxOldSpaceSize]
  split
  · next heq =>
    rw [getMaxOldSpaceSizeArg_two_form pre hpre n post] at heq
    cases heq
  · next arg heq =>
    rw [getMaxOldSpaceSizeArg_two_form pre hpre n post] at heq
    cases heq
    have ht : (pre ++ "--max_old_space_size" :: natToDecimal n :: post).take pre.length =
        pre := List.take_left pre ("--max_old_space_size" :: natToDecimal n :: post)
    have hd : (pre ++ "--max_old_space_size" :: natToDecimal n :: post).drop
        (pre.length + 2) = post := by
      have h1 : pre ++ "--max_old_space_size" :: natToDecimal n :: post =
          (pre ++ ["--max_old_space_size", natToDecimal n]) ++ post := by simp
      have h2 : pre.length + 2 =
          (pre ++ ["--max_old_space_size", natToDecimal n]).length := by simp
      rw [h1, h2, List.drop_left]
    rw [spliceOut, ht, hd]
    exact remove_of_none _ ((getMaxOldSpaceSizeArgAux_eq_none_iff (pre ++ post) 0).mpr
      (fun s hs => (List.mem_append.mp hs).elim (hpre s) (hpost s)))

/-- Appending a fresh ceiling flag to a cleaned list yields exactly one
flag occurrence. -/
theorem countP_remove_append_ceiling (argv : List String) (c : Nat) :
    ((getExecArgvWithoutMaxOldSpaceSize argv ++
        ["--max_old_space_size=" ++ natToDecimal c]).countP
      (fun s => (maxOldSpaceSizeRegExpExec s).isSome)) = 1 := by
  rw [List.countP_append]
  have h0 : (getExecArgvWithoutMaxOldSpaceSize argv).countP
      (fun s => (maxOldSpaceSizeRegExpExec s).isSome) = 0 := by
    rw [List.countP_eq_zero]
    intro s hs
    rw [(getMaxOldSpaceSizeArgAux_eq_none_iff _ 0).mp (remove_no_match argv) s hs]
    simp
  rw [h0]
  simp [List.countP_cons, regExp_flag_eq_form c]

/-! ### The dispatcher accounting invariant -/

/-- The in-flight tasks of a slot list. -/
def aliveT (l : List Slot) : List Nat :=
  l.filterMap (fun sl => if sl.alive then some sl.currentTask else none)

theorem aliveTasks_eq (s : RunState) : aliveTasks s = aliveT s.slots := rfl

/-- The in-flight task of one slot, as a multiset. -/
def optT (sl : Slot) : Multiset Nat :=
  if sl.alive then {sl.currentTask} else 0

theorem optT_card (sl : Slot) : (optT sl).card = if sl.alive then 1 else 0 := by
  rw [optT]
  split <;> simp

/-- Inserting one element in the middle of an append, on multisets. -/
theorem coe_append_singleton (A B : List Nat) (x : Nat) :
    (↑(A ++ B) : Multiset Nat) + {x} = ↑(A ++ x :: B) := by
  have h1 : (↑(A ++ B) : Multiset Nat) = ↑A + ↑B := by rw [← Multiset.coe_add]
  have h2 : (↑(A ++ x :: B) : Multiset Nat) = ↑A + ↑(x :: B) := by rw [← Multiset.coe_add]
  rw [h1, h2, ← Multiset.cons_coe, Multiset.add_cons, add_comm, Multiset.singleton_add]

/-- Replacing one slot exchanges its in-flight contribution. -/
theorem aliveT_set (l : List Slot) (i : Nat) (sl b : Slot) (h : l[i]? = some sl) :
    (↑(aliveT (l.set i b)) + optT sl : Multiset Nat) = ↑(aliveT l) + optT b := by
  obtain ⟨hlen, hget⟩ := List.getElem?_eq_some_iff.mp h
  have hdec : l = l.take i ++ sl :: l.drop (i + 1) := by
    conv_lhs => rw [← List.take_append_drop i l]
    rw [List.drop_eq_getElem_cons hlen, hget]
  have hset : l.set i b = l.take i ++ b :: l.drop (i + 1) :=
    List.set_eq_take_cons_drop b hlen
  rw [hset]
  conv_rhs => rw [hdec]
  rw [aliveT, aliveT, List.filterMap_append, List.filterMap_append,
    List.filterMap_cons, List.filterMap_cons]
  rcases hb : b.alive <;> rcases hs : sl.alive <;>
    simp only [optT, hb, hs, if_true, if_false, Bool.false_eq_true, add_zero]
  · exact coe_append_singleton _ _ _
  · exact (coe_append_singleton _ _ _).symm
  · rw [← coe_append_singleton, ← coe_append_singleton, add_right_comm]

/-- Killing every child empties the in-flight multiset. -/
theorem aliveT_map_dead (l : List Slot) :
    aliveT (l.map (fun sl => { sl with alive := false })) = [] := by
  induction l with
  | nil => rfl
  | cons a l ih => simpa [aliveT, List.filterMap_cons] using ih

/-- The accounting invariant of `runWithListeningChildProcesses`: every
task is accounted exactly once among recorded results, in-flight slots
and the not-yet-dispatched tail; `processesLeft` counts live children;
rejection kills everything; resolution entails all slots retired. -/
structure RunInv (s : RunState) : Prop where
  idx_le : s.inputIndex ≤ s.total
  left_eq : s.rejected = false → s.processesLeft = (aliveT s.slots).length
  acc : s.rejected = false →
    (↑(s.results.map Prod.fst) + ↑(aliveT s.slots) + ↑(remainingTasks s) : Multiset Nat) =
      ↑(List.range s.total)
  res : s.resolved = true → s.rejected = false ∧ s.processesLeft = 0
  left_zero : s.rejected = false → s.processesLeft = 0 → s.inputIndex = s.total
  rej_dead : s.rejected = true → ∀ sl ∈ s.slots, sl.alive = false

/-- Closed form of the startup loop: starting from cursor `k`, the loop
starts `min (k + P) total - k` children, hands them consecutive tasks,
and counts every skipped slot off `processesLeft`. -/
theorem initFold_spec (P : Nat) (st : RunState) (hk : st.inputIndex ≤ st.total) :
    (List.range P).foldl initStep st =
      { total := st.total,
        inputIndex := min (st.inputIndex + P) st.total,
        processesLeft :=
          st.processesLeft - (P - (min (st.inputIndex + P) st.total - st.inputIndex)),
        slots := st.slots ++ (List.range P).map (fun j =>
          if st.inputIndex + j < st.total then
            ⟨true, CrashRecoveryState.Normal, st.inputIndex + j⟩
          else ⟨false, CrashRecoveryState.Normal, 0⟩),
        results := st.results,
        resolved := st.resolved,
        rejected := st.rejected,
        spawnCount := st.spawnCount + (min (st.inputIndex + P) st.total - st.inputIndex),
        errorCount := st.errorCount } := by
  induction P with
  | zero =>
    have h1 : min (st.inputIndex + 0) st.total = st.inputIndex := by omega
    rcases st with ⟨t, k, pl, sl, r, rv, rj, sc, ec⟩
    simp only at h1 hk
    simp [h1, hk]
  | succ P ih =>
    rw [List.range_succ, List.foldl_append, ih, List.foldl_cons, List.foldl_nil, initStep]
    by_cases hfull : st.inputIndex + P < st.total
    · have hmin : min (st.inputIndex + P) st.total = st.inputIndex + P := by omega
      have hmin1 : min (st.inputIndex + (P + 1)) st.total = st.inputIndex + P + 1 := by
        omega
      rw [hmin]
      rw [if_neg (by simp only; omega)]
      simp only [RunState.mk.injEq, hmin1]
      and_intros <;>
        first
          | trivial
          | omega
          | (simp [List.range_succ, List.append_assoc, hfull])
    · have hmin : min (st.inputIndex + P) st.total = st.total := by omega
      have hmin1 : min (st.inputIndex + (P + 1)) st.total = st.total := by omega
      rw [hmin]
      rw [if_pos rfl]
      simp only [RunState.mk.injEq, hmin1]
      and_intros <;>
        first
          | trivial
          | omega
          | (simp [List.range_succ, List.append_assoc, hfull])


theorem filterMap_range_lt (P total : Nat) :
    (List.range P).filterMap (fun i => if i < total then some i else none) =
      List.range (min P total) := by
  induction P with
  | zero => simp
  | succ P ih =>
    rw [List.range_succ, List.filterMap_append, ih]
    by_cases h : P < total
    · have h2 : min (P + 1) total = min P total + 1 := by omega
      have h3 : min P total = P := by omega
      simp [h, h2, h3, List.range_succ]
    · have h2 : min (P + 1) total = min P total := by omega
      simp [h, h2]

/-- The slot list built by the startup loop. -/
theorem initState_eq (total P : Nat) :
    initState total P =
      { total := total, inputIndex := min P total,
        processesLeft := min P total,
        slots := (List.range P).map (fun j =>
          if j < total then ⟨true, CrashRecoveryState.Normal, j⟩
          else ⟨false, CrashRecoveryState.Normal, 0⟩),
        results := [], resolved := false, rejected := false,
        spawnCount := min P total, errorCount := 0 } := by
  rw [initState, initFold_spec _ _ (by simp)]
  simp only [RunState.mk.injEq, Nat.zero_add, Nat.sub_zero]
  and_intros <;> first | trivial | omega

theorem aliveT_initState (total P : Nat) :
    aliveT (initState total P).slots = List.range (min P total) := by
  rw [initState_eq]
  simp only [aliveT, List.filterMap_map]
  have hcomp : ((fun sl : Slot => if sl.alive then some sl.currentTask else none) ∘
      (fun j => if j < total then (⟨true, CrashRecoveryState.Normal, j⟩ : Slot)
        else ⟨false, CrashRecoveryState.Normal, 0⟩)) =
      (fun j => if j < total then some j else none) := by
    funext j
    by_cases h : j < total <;> simp [h, Function.comp]
  rw [hcomp, filterMap_range_lt]

/-- The startup loop establishes the invariant (for a non-empty pool). -/
theorem initState_runInv (total P : Nat) (hP : 1 ≤ P) : RunInv (initState total P) := by
  have hAT := aliveT_initState total P
  rw [initState_eq] at hAT ⊢
  refine ⟨?_, ?_, ?_, ?_, ?_, ?_⟩
  · simp only
    omega
  · intro _
    simp only at hAT ⊢
    rw [hAT]
    simp
  · intro _
    simp only at hAT ⊢
    rw [hAT]
    simp only [remainingTasks]
    have hrange : List.range (min P total) ++ List.range' (min P total) (total - min P total) =
        List.range total := by
      rw [List.range_eq_range', List.range_eq_range']
      have := List.range'_append_1 0 (min P total) (total - min P total)
      simp only [Nat.zero_add] at this
      rw [this]
      congr 1
      omega
    rw [← hrange]
    simp [← Multiset.coe_add]
  · intro h
    simp only at h
    cases h
  · intro _ h
    simp only at h ⊢
    omega
  · intro h
    simp only at h
    cases h


theorem optT_alive (sl : Slot) (h : sl.alive = true) : optT sl = {sl.currentTask} := by
  simp [optT, h]

theorem optT_dead (sl : Slot) (h : sl.alive = false) : optT sl = 0 := by
  simp [optT, h]

theorem aliveT_mem (l : List Slot) (i : Nat) (sl : Slot) (h : l[i]? = some sl)
    (ha : sl.alive = true) : sl.currentTask ∈ aliveT l :=
  List.mem_filterMap.mpr ⟨sl, List.getElem?_mem h, by simp [ha]⟩

theorem aliveT_length_pos (l : List Slot) (i : Nat) (sl : Slot) (h : l[i]? = some sl)
    (ha : sl.alive = true) : 0 < (aliveT l).length :=
  List.length_pos.mpr (List.ne_nil_of_mem (aliveT_mem l i sl h ha))

theorem remainingTasks_cons (s : RunState) (h : s.inputIndex < s.total) :
    remainingTasks s =
      s.inputIndex :: List.range' (s.inputIndex + 1) (s.total - (s.inputIndex + 1)) := by
  rw [remainingTasks]
  have h2 : s.total - s.inputIndex = (s.total - (s.inputIndex + 1)) + 1 := by omega
  rw [h2, List.range'_succ]

theorem aliveT_set_length (l : List Slot) (i : Nat) (sl b : Slot) (h : l[i]? = some sl) :
    (aliveT (l.set i b)).length + (optT sl).card = (aliveT l).length + (optT b).card := by
  have := congrArg Multiset.card (aliveT_set l i sl b h)
  simpa using this

/-- The multiset step of `advance`-type transitions: hand in `t`, take
on `x` from the head of the remainder. -/
theorem acc_shuffle (R AT1 AT2 Rem2 : List Nat) (t x : Nat)
    (haset : (↑AT2 + {t} : Multiset Nat) = ↑AT1 + {x})
    (hacc : (↑R + ↑AT1 + ({x} + ↑Rem2) : Multiset Nat) = ↑(List.range n)) :
    (↑(R ++ [t]) + ↑AT2 + ↑Rem2 : Multiset Nat) = ↑(List.range n) := by
  have e1 : (↑(R ++ [t]) : Multiset Nat) = ↑R + {t} := by
    rw [← Multiset.coe_add]
    simp
  rw [e1, ← hacc]
  have e2 : (↑R + {t} + ↑AT2 + ↑Rem2 : Multiset Nat) = ↑R + (↑AT2 + {t}) + ↑Rem2 := by
    abel
  rw [e2, haset]
  abel

/-- Invariant preservation: a slot hands in an outcome for its current
task and is handed the next task. -/
theorem RunInv_advance (s : RunState) (i : Nat) (sl b : Slot) (r : TaskResult) (sc : Nat)
    (inv : RunInv s) (hsl : s.slots[i]? = some sl) (ha : sl.alive = true)
    (hb : b.alive = true) (hbt : b.currentTask = s.inputIndex)
    (hrej : s.rejected = false) (hlt : s.inputIndex < s.total) :
    RunInv { s with slots := s.slots.set i b,
                    results := s.results ++ [(sl.currentTask, r)],
                    inputIndex := s.inputIndex + 1,
                    spawnCount := sc } := by
  have haset := aliveT_set s.slots i sl b hsl
  rw [optT_alive sl ha, optT_alive b hb, hbt] at haset
  have hlen := aliveT_set_length s.slots i sl b hsl
  rw [optT_alive sl ha, optT_alive b hb] at hlen
  simp only [Multiset.card_singleton] at hlen
  refine ⟨?_, ?_, ?_, ?_, ?_, ?_⟩
  · show s.inputIndex + 1 ≤ s.total
    omega
  · intro _
    show s.processesLeft = (aliveT (s.slots.set i b)).length
    rw [inv.left_eq hrej]
    omega
  · intro _
    show (↑((s.results ++ [(sl.currentTask, r)]).map Prod.fst) + ↑(aliveT (s.slots.set i b)) +
        ↑(List.range' (s.inputIndex + 1) (s.total - (s.inputIndex + 1))) : Multiset Nat) =
      ↑(List.range s.total)
    rw [List.map_append]
    refine acc_shuffle _ _ _ _ _ _ haset ?_
    have hacc := inv.acc hrej
    rw [remainingTasks_cons s hlt, ← Multiset.cons_coe, ← Multiset.singleton_add] at hacc
    exact hacc
  · exact fun h => inv.res h
  · intro _ hpl
    have hpl2 : s.processesLeft = 0 := hpl
    rw [inv.left_eq hrej] at hpl2
    have := aliveT_length_pos s.slots i sl hsl ha
    omega
  · intro h
    have h2 : s.rejected = true := h
    rw [hrej] at h2
    cases h2

/-- Invariant preservation: a slot hands in an outcome for its current
task and retires because no inputs remain. -/
theorem RunInv_retire (s : RunState) (i : Nat) (sl b : Slot) (r : TaskResult)
    (inv : RunInv s) (hsl : s.slots[i]? = some sl) (ha : sl.alive = true)
    (hb : b.alive = false) (hrej : s.rejected = false) (hres : s.resolved = false)
    (heq : s.inputIndex = s.total) :
    RunInv { s with slots := s.slots.set i b,
                    results := s.results ++ [(sl.currentTask, r)],
                    processesLeft := s.processesLeft - 1,
                    resolved := if s.processesLeft - 1 = 0 then true else s.resolved } := by
  have haset := aliveT_set s.slots i sl b hsl
  rw [optT_alive sl ha, optT_dead b hb, add_zero] at haset
  have hlen := aliveT_set_length s.slots i sl b hsl
  rw [optT_alive sl ha, optT_dead b hb] at hlen
  simp only [Multiset.card_singleton, Multiset.card_zero, Nat.add_zero] at hlen
  refine ⟨?_, ?_, ?_, ?_, ?_, ?_⟩
  · exact inv.idx_le
  · intro _
    show s.processesLeft - 1 = (aliveT (s.slots.set i b)).length
    rw [inv.left_eq hrej]
    omega
  · intro _
    show (↑((s.results ++ [(sl.currentTask, r)]).map Prod.fst) + ↑(aliveT (s.slots.set i b)) +
        ↑(List.range' s.inputIndex (s.total - s.inputIndex)) : Multiset Nat) =
      ↑(List.range s.total)
    rw [List.map_append]
    have hRemNil : List.range' s.inputIndex (s.total - s.inputIndex) = [] := by
      rw [heq]
      simp
    rw [hRemNil]
    have hacc := inv.acc hrej
    rw [remainingTasks, hRemNil] at hacc
    have e1 : (↑(s.results.map Prod.fst ++ [(sl.currentTask, r)].map Prod.fst) :
        Multiset Nat) = ↑(s.results.map Prod.fst) + {sl.currentTask} := by
      rw [← Multiset.coe_add]
      simp
    rw [e1]
    have e2 : (↑(s.results.map Prod.fst) + {sl.currentTask} + ↑(aliveT (s.slots.set i b)) +
        ↑([] : List Nat) : Multiset Nat) =
        ↑(s.results.map Prod.fst) + (↑(aliveT (s.slots.set i b)) + {sl.currentTask}) := by
      simp only [Multiset.coe_nil, add_zero]
      abel
    rw [e2, haset]
    simpa using hacc
  · intro h
    have h2 : (if s.processesLeft - 1 = 0 then true else s.resolved) = true := h
    by_cases hz : s.processesLeft - 1 = 0
    · exact ⟨hrej, hz⟩
    · rw [if_neg hz, hres] at h2
      cases h2
  · intro _ _
    exact heq
  · intro h
    have h2 : s.rejected = true := h
    rw [hrej] at h2
    cases h2

/-- Invariant preservation: the slot is restarted on the same task (the
`Retry` and `RetryWithMoreMemory` resume paths). -/
theorem RunInv_resame (s : RunState) (i : Nat) (sl b : Slot) (sc : Nat)
    (inv : RunInv s) (hsl : s.slots[i]? = some sl) (ha : sl.alive = true)
    (hb : b.alive = true) (hbt : b.currentTask = sl.currentTask)
    (hrej : s.rejected = false) :
    RunInv { s with slots := s.slots.set i b, spawnCount := sc } := by
  have haset := aliveT_set s.slots i sl b hsl
  rw [optT_alive sl ha, optT_alive b hb, hbt] at haset
  have hAT : (↑(aliveT (s.slots.set i b)) : Multiset Nat) = ↑(aliveT s.slots) :=
    add_right_cancel haset
  have hATlen : (aliveT (s.slots.set i b)).length = (aliveT s.slots).length := by
    have := congrArg Multiset.card hAT
    simpa using this
  refine ⟨inv.idx_le, ?_, ?_, ?_, ?_, ?_⟩
  · intro _
    show s.processesLeft = (aliveT (s.slots.set i b)).length
    rw [hATlen]
    exact inv.left_eq hrej
  · intro _
    show (↑(s.results.map Prod.fst) + ↑(aliveT (s.slots.set i b)) +
        ↑(List.range' s.inputIndex (s.total - s.inputIndex)) : Multiset Nat) =
      ↑(List.range s.total)
    rw [hAT]
    exact inv.acc hrej
  · exact fun h => inv.res h
  · exact fun h hpl => inv.left_zero h hpl
  · intro h
    have h2 : s.rejected = true := h
    rw [hrej] at h2
    cases h2

/-- Invariant preservation of `fail`: rejection only needs the cursor
bound, an unresolved promise, and no prior rejection. -/
theorem RunInv_failRun (s2 : RunState) (hidx : s2.inputIndex ≤ s2.total)
    (hres : s2.resolved = false) (hrej : s2.rejected = false) :
    RunInv (failRun s2) := by
  rw [failRun, if_neg (by rw [hrej]; exact fun h => by cases h)]
  refine ⟨hidx, ?_, ?_, ?_, ?_, ?_⟩
  · intro h
    have h2 : (true : Bool) = false := h
    cases h2
  · intro h
    have h2 : (true : Bool) = false := h
    cases h2
  · intro h
    have h2 : s2.resolved = true := h
    rw [hres] at h2
    cases h2
  · intro h
    have h2 : (true : Bool) = false := h
    cases h2
  · intro _ sl hmem
    have hmem2 : sl ∈ s2.slots.map (fun sl => { sl with alive := false }) := hmem
    obtain ⟨d, _, hd⟩ := List.mem_map.mp hmem2
    rw [← hd]


/-- `onMessage` preserves the accounting invariant. -/
theorem RunInv_stepMessage (s : RunState) (i : Nat) (ok sf : Bool) (inv : RunInv s) :
    RunInv (stepMessage s i ok sf) := by
  cases hsl : s.slots[i]? with
  | none => rw [stepMessage, hsl]; exact inv
  | some sl =>
    by_cases ha : sl.alive = true
    · have hlen : i < s.slots.length := (List.getElem?_eq_some_iff.mp hsl).1
      have hrej : s.rejected = false := by
        cases hr : s.rejected
        · rfl
        · have h2 := inv.rej_dead hr sl (List.getElem?_mem hsl)
          rw [ha] at h2
          cases h2
      have hres : s.resolved = false := by
        cases hr : s.resolved
        · rfl
        · obtain ⟨hnr, hpl⟩ := inv.res hr
          have hpos := aliveT_length_pos s.slots i sl hsl ha
          have h3 := inv.left_eq hnr
          omega
      rw [stepMessage, hsl]
      simp only [stopChildDone, ha, if_true, List.getElem?_set_self, hlen,
        List.length_set, List.set_set]
      by_cases hidx : s.inputIndex = s.total
      · rw [if_pos hidx]
        have hret := RunInv_retire s i sl
          ⟨false, CrashRecoveryState.Normal, sl.currentTask⟩ (TaskResult.output ok)
          inv hsl ha rfl hrej hres hidx
        by_cases hz : s.processesLeft - 1 = 0
        · rw [if_pos hz]
          rw [if_pos hz] at hret
          exact hret
        · rw [if_neg hz]
          rw [if_neg hz] at hret
          exact hret
      · rw [if_neg hidx]
        have hlt : s.inputIndex < s.total := by
          have := inv.idx_le
          omega
        by_cases hold : (sl.recovery != CrashRecoveryState.Normal) = true
        · rw [if_pos hold]
          by_cases hsf : sf = true
          · rw [if_pos hsf]
            exact RunInv_failRun _ inv.idx_le hres hrej
          · rw [if_neg hsf]
            exact RunInv_advance s i sl
              ⟨true, CrashRecoveryState.Normal, s.inputIndex⟩ (TaskResult.output ok)
              (s.spawnCount + 1) inv hsl ha rfl rfl hrej hlt
        · rw [if_neg hold]
          exact RunInv_advance s i sl
            ⟨true, CrashRecoveryState.Normal, s.inputIndex⟩ (TaskResult.output ok)
            s.spawnCount inv hsl ha rfl rfl hrej hlt
    · rw [stepMessage, hsl]
      have ha2 : sl.alive = false := by
        cases h : sl.alive
        · rfl
        · rw [h] at ha; exact absurd rfl ha
      simp only [ha2, Bool.false_eq_true, if_false]
      exact inv

/-- `onClose` preserves the accounting invariant. -/
theorem RunInv_stepClose (cfg : RunConfig) (s : RunState) (i : Nat) (sf : Bool)
    (inv : RunInv s) : RunInv (stepClose cfg s i sf) := by
  cases hsl : s.slots[i]? with
  | none => rw [stepClose, hsl]; exact inv
  | some sl =>
    by_cases hguard : (s.rejected || !sl.alive) = true
    · rw [stepClose, hsl]
      simp only [hguard, if_true]
      exact inv
    · have ha : sl.alive = true := by
        revert hguard
        cases sl.alive <;> simp
      have hrej : s.rejected = false := by
        revert hguard
        cases s.rejected <;> simp
      have hg : (s.rejected || !sl.alive) = false := by
        rw [ha, hrej]
        rfl
      have hlen : i < s.slots.length := (List.getElem?_eq_some_iff.mp hsl).1
      have hres : s.resolved = false := by
        cases hr : s.resolved
        · rfl
        · obtain ⟨hnr, hpl⟩ := inv.res hr
          have hpos := aliveT_length_pos s.slots i sl hsl ha
          have h3 := inv.left_eq hnr
          omega
      rw [stepClose, hsl]
      simp only [hg, Bool.false_eq_true, if_false]
      cases ht : crashRecoveryTransition cfg.crashRecovery cfg.maxOldSpaceSize
          cfg.crashRecoveryMaxOldSpaceSize sl.recovery with
      | Normal =>
        exact RunInv_failRun _ inv.idx_le hres hrej
      | Retry =>
        simp only [List.set_set]
        by_cases hsf : sf = true
        · rw [if_pos hsf]
          exact RunInv_failRun _ inv.idx_le hres hrej
        · rw [if_neg hsf]
          exact RunInv_resame s i sl
            ⟨true, CrashRecoveryState.Retry, sl.currentTask⟩ (s.spawnCount + 1)
            inv hsl ha rfl rfl hrej
      | RetryWithMoreMemory =>
        simp only [List.set_set]
        by_cases hsf : sf = true
        · rw [if_pos hsf]
          exact RunInv_failRun _ inv.idx_le hres hrej
        · rw [if_neg hsf]
          exact RunInv_resame s i sl
            ⟨true, CrashRecoveryState.RetryWithMoreMemory, sl.currentTask⟩
            (s.spawnCount + 1) inv hsl ha rfl rfl hrej
      | Crashed =>
        simp only [stopChildDone, List.getElem?_set_self, hlen, List.length_set,
          List.set_set]
        by_cases hidx : s.inputIndex = s.total
        · rw [if_pos hidx]
          have hret := RunInv_retire s i sl
            ⟨false, CrashRecoveryState.Normal, sl.currentTask⟩ TaskResult.crashed
            inv hsl ha rfl hrej hres hidx
          by_cases hz : s.processesLeft - 1 = 0
          · rw [if_pos hz]
            rw [if_pos hz] at hret
            exact hret
          · rw [if_neg hz]
            rw [if_neg hz] at hret
            exact hret
        · rw [if_neg hidx]
          have hlt : s.inputIndex < s.total := by
            have := inv.idx_le
            omega
          by_cases hsf : sf = true
          · rw [if_pos hsf]
            exact RunInv_failRun _ inv.idx_le hres hrej
          · rw [if_neg hsf]
            exact RunInv_advance s i sl
              ⟨true, CrashRecoveryState.Normal, s.inputIndex⟩ TaskResult.crashed
              (s.spawnCount + 1) inv hsl ha rfl rfl hrej hlt

/-- One coordinator reaction preserves the invariant. -/
theorem RunInv_step (cfg : RunConfig) (s : RunState) (e : Event) (inv : RunInv s) :
    RunInv (step cfg s e) := by
  cases e with
  | message i ok sf => exact RunInv_stepMessage s i ok sf inv
  | close i sf => exact RunInv_stepClose cfg s i sf inv

/-- A whole run preserves the invariant. -/
theorem RunInv_run (cfg : RunConfig) (s : RunState) (es : List Event) (inv : RunInv s) :
    RunInv (run cfg s es) := by
  induction es generalizing s with
  | nil => exact inv
  | cons e es ih => exact ih (step cfg s e) (RunInv_step cfg s e inv)


theorem stepMessage_total (s : RunState) (i : Nat) (ok sf : Bool) :
    (stepMessage s i ok sf).total = s.total := by
  cases hsl : s.slots[i]? with
  | none => rw [stepMessage, hsl]
  | some sl =>
    rw [stepMessage, hsl]
    by_cases ha : sl.alive = true
    · simp only [stopChildDone, failRun, ha, if_true, List.getElem?_set_self,
        List.length_set, List.set_set]
      repeat' split
      all_goals rfl
    · have ha2 : sl.alive = false := by
        cases h : sl.alive
        · rfl
        · rw [h] at ha; exact absurd rfl ha
      simp only [ha2, Bool.false_eq_true, if_false]

theorem stepClose_total (cfg : RunConfig) (s : RunState) (i : Nat) (sf : Bool) :
    (stepClose cfg s i sf).total = s.total := by
  cases hsl : s.slots[i]? with
  | none => rw [stepClose, hsl]
  | some sl =>
    rw [stepClose, hsl]
    simp only [stopChildDone, failRun, List.getElem?_set_self, List.length_set,
      List.set_set]
    repeat' split
    all_goals rfl

theorem step_total (cfg : RunConfig) (s : RunState) (e : Event) :
    (step cfg s e).total = s.total := by
  cases e with
  | message i ok sf => exact stepMessage_total s i ok sf
  | close i sf => exact stepClose_total cfg s i sf

theorem run_total (cfg : RunConfig) (s : RunState) (es : List Event) :
    (run cfg s es).total = s.total := by
  induction es generalizing s with
  | nil => rfl
  | cons e es ih => rw [run, ih, step_total]

/-- With every child dead, no event changes the state. -/
theorem step_of_dead (cfg : RunConfig) (s : RunState) (e : Event)
    (hdead : ∀ sl ∈ s.slots, sl.alive = false) : step cfg s e = s := by
  cases e with
  | message i ok sf =>
    rw [step, stepMessage]
    cases hsl : s.slots[i]? with
    | none => rfl
    | some sl =>
      have := hdead sl (List.getElem?_mem hsl)
      simp [this]
  | close i sf =>
    rw [step, stepClose]
    cases hsl : s.slots[i]? with
    | none => rfl
    | some sl =>
      have := hdead sl (List.getElem?_mem hsl)
      simp [this]

theorem run_of_dead (cfg : RunConfig) (s : RunState) (es : List Event)
    (hdead : ∀ sl ∈ s.slots, sl.alive = false) : run cfg s es = s := by
  induction es with
  | nil => rfl
  | cons e es ih =>
    rw [run, step_of_dead cfg s e hdead, ih]


/-- Explicit form of `onMessage` when no inputs remain. -/
theorem stepMessage_eq_retire (s : RunState) (i : Nat) (sl : Slot) (ok : Bool)
    (hsl : s.slots[i]? = some sl) (ha : sl.alive = true)
    (hidx : s.inputIndex = s.total) :
    stepMessage s i ok false =
      { s with slots := s.slots.set i ⟨false, CrashRecoveryState.Normal, sl.currentTask⟩,
               results := s.results ++ [(sl.currentTask, TaskResult.output ok)],
               processesLeft := s.processesLeft - 1,
               resolved := if s.processesLeft - 1 = 0 then true else s.resolved } := by
  have hlen : i < s.slots.length := (List.getElem?_eq_some_iff.mp hsl).1
  rw [stepMessage, hsl]
  simp only [stopChildDone, ha, if_true, List.getElem?_set_self, hlen,
    List.length_set, List.set_set]
  rw [if_pos hidx]
  by_cases hz : s.processesLeft - 1 = 0
  · rw [if_pos hz, if_pos hz]
  · rw [if_neg hz, if_neg hz]

/-- Explicit form of `onMessage` when inputs remain and the fork (if
any) succeeds: the slot is handed the next task. -/
theorem stepMessage_eq_advance (s : RunState) (i : Nat) (sl : Slot) (ok : Bool)
    (hsl : s.slots[i]? = some sl) (ha : sl.alive = true)
    (hidx : ¬ s.inputIndex = s.total) :
    ∃ sc, stepMessage s i ok false =
      { s with slots := s.slots.set i ⟨true, CrashRecoveryState.Normal, s.inputIndex⟩,
               results := s.results ++ [(sl.currentTask, TaskResult.output ok)],
               inputIndex := s.inputIndex + 1,
               spawnCount := sc } := by
  have hlen : i < s.slots.length := (List.getElem?_eq_some_iff.mp hsl).1
  rw [stepMessage, hsl]
  simp only [stopChildDone, ha, if_true, List.getElem?_set_self, hlen,
    List.length_set, List.set_set]
  rw [if_neg hidx]
  by_cases hold : (sl.recovery != CrashRecoveryState.Normal) = true
  · rw [if_pos hold]
    exact ⟨s.spawnCount + 1, by rw [if_neg (by simp)]⟩
  · rw [if_neg hold]
    exact ⟨s.spawnCount, rfl⟩

/-- From any invariant-satisfying, unrejected state that is resolved or
still has a live child, some schedule reaches resolution. -/
theorem completion_reachable (cfg : RunConfig) :
    ∀ (n : Nat) (s : RunState), RunInv s → s.rejected = false →
      (s.total - s.inputIndex) + (aliveT s.slots).length ≤ n →
      (s.resolved = true ∨ 0 < (aliveT s.slots).length) →
      ∃ es, (run cfg s es).resolved = true := by
  intro n
  induction n with
  | zero =>
    intro s inv hrej hm hd
    rcases hd with h | h
    · exact ⟨[], h⟩
    · omega
  | succ n ih =>
    intro s inv hrej hm hd
    rcases hd with h | h
    · exact ⟨[], h⟩
    · have hne : aliveT s.slots ≠ [] := by
        intro hnil
        rw [hnil] at h
        simp at h
      obtain ⟨t, hmemT⟩ := List.exists_mem_of_ne_nil _ hne
      obtain ⟨sl, hmem, hsel⟩ := List.mem_filterMap.mp hmemT
      have ha : sl.alive = true := by
        by_contra hna
        simp only [Bool.not_eq_true] at hna
        rw [hna] at hsel
        simp at hsel
      obtain ⟨i, hi, hgeti⟩ := List.mem_iff_getElem.mp hmem
      have hsl : s.slots[i]? = some sl := by
        rw [List.getElem?_eq_some_iff]
        exact ⟨hi, hgeti⟩
      have inv2 : RunInv (stepMessage s i true false) :=
        RunInv_stepMessage s i true false inv
      have hcons : ∀ es, run cfg s (Event.message i true false :: es) =
          run cfg (stepMessage s i true false) es := fun es => rfl
      by_cases hidx : s.inputIndex = s.total
      · -- the slot retires
        have heq := stepMessage_eq_retire s i sl true hsl ha hidx
        have hATlen := aliveT_set_length s.slots i
          sl ⟨false, CrashRecoveryState.Normal, sl.currentTask⟩ hsl
        rw [optT_alive sl ha] at hATlen
        simp only [Multiset.card_singleton, optT, if_false, Multiset.card_zero,
          Bool.false_eq_true, Nat.add_zero] at hATlen
        obtain ⟨es, hes⟩ := ih (stepMessage s i true false) inv2
          (by rw [heq]; exact hrej)
          (by rw [heq]; simp only; omega)
          (by
            rw [heq]
            by_cases hz : s.processesLeft - 1 = 0
            · left
              simp only
              rw [if_pos hz]
            · right
              simp only
              have hpl := inv.left_eq hrej
              omega)
        exact ⟨Event.message i true false :: es, by rw [hcons]; exact hes⟩
      · -- the slot advances to the next task
        obtain ⟨sc, heq⟩ := stepMessage_eq_advance s i sl true hsl ha hidx
        have hATlen := aliveT_set_length s.slots i
          sl ⟨true, CrashRecoveryState.Normal, s.inputIndex⟩ hsl
        rw [optT_alive sl ha, optT_alive _ rfl] at hATlen
        simp only [Multiset.card_singleton] at hATlen
        have hlt : s.inputIndex < s.total := by
          have := inv.idx_le
          omega
        obtain ⟨es, hes⟩ := ih (stepMessage s i true false) inv2
          (by rw [heq]; exact hrej)
          (by rw [heq]; simp only; omega)
          (by
            right
            rw [heq]
            simp only
            omega)
        exact ⟨Event.message i true false :: es, by rw [hcons]; exact hes⟩


/-- `onMessage` never revives a slot that has no live child. -/
theorem stepMessage_dead_at (s : RunState) (i : Nat) (ok sf : Bool) (j : Nat)
    (hdead : ∀ sl, s.slots[j]? = some sl → sl.alive = false) :
    ∀ sl2, (stepMessage s i ok sf).slots[j]? = some sl2 → sl2.alive = false := by
  cases hsl : s.slots[i]? with
  | none => rw [stepMessage, hsl]; exact hdead
  | some sl =>
    by_cases ha : sl.alive = true
    · have hij : i ≠ j := by
        intro hij
        subst hij
        rw [hdead sl hsl] at ha
        cases ha
      have hlen : i < s.slots.length := (List.getElem?_eq_some_iff.mp hsl).1
      rw [stepMessage, hsl]
      simp only [stopChildDone, failRun, ha, if_true, List.getElem?_set_self, hlen,
        List.length_set, List.set_set]
      repeat' split
      all_goals intro sl2 h2
      all_goals try dsimp only at h2
      all_goals
        first
          | exact hdead sl2 h2
          | (rw [List.getElem?_set_ne hij] at h2
             exact hdead sl2 h2)
          | (obtain ⟨d, _, hd⟩ := List.mem_map.mp (List.getElem?_mem h2)
             rw [← hd])
    · have ha2 : sl.alive = false := by
        cases h : sl.alive
        · rfl
        · rw [h] at ha; exact absurd rfl ha
      rw [stepMessage, hsl]
      simp only [ha2, Bool.false_eq_true, if_false]
      exact hdead

/-- `onClose` never revives a slot that has no live child. -/
theorem stepClose_dead_at (cfg : RunConfig) (s : RunState) (i : Nat) (sf : Bool) (j : Nat)
    (hdead : ∀ sl, s.slots[j]? = some sl → sl.alive = false) :
    ∀ sl2, (stepClose cfg s i sf).slots[j]? = some sl2 → sl2.alive = false := by
  cases hsl : s.slots[i]? with
  | none => rw [stepClose, hsl]; exact hdead
  | some sl =>
    by_cases hguard : (s.rejected || !sl.alive) = true
    · rw [stepClose, hsl]
      simp only [hguard, if_true]
      exact hdead
    · have ha : sl.alive = true := by
        revert hguard
        cases sl.alive <;> simp
      have hg : (s.rejected || !sl.alive) = false := by
        revert hguard
        cases s.rejected <;> cases sl.alive <;> simp
      have hij : i ≠ j := by
        intro hij
        subst hij
        rw [hdead sl hsl] at ha
        cases ha
      have hlen : i < s.slots.length := (List.getElem?_eq_some_iff.mp hsl).1
      rw [stepClose, hsl]
      simp only [hg, Bool.false_eq_true, if_false, stopChildDone, failRun,
        List.getElem?_set_self, hlen, List.length_set, List.set_set]
      repeat' split
      all_goals intro sl2 h2
      all_goals try dsimp only at h2
      all_goals
        first
          | exact hdead sl2 h2
          | (rw [List.getElem?_set_ne hij] at h2
             exact hdead sl2 h2)
          | (obtain ⟨d, _, hd⟩ := List.mem_map.mp (List.getElem?_mem h2)
             rw [← hd])

theorem run_dead_at (cfg : RunConfig) (s : RunState) (es : List Event) (j : Nat)
    (hdead : ∀ sl, s.slots[j]? = some sl → sl.alive = false) :
    ∀ sl2, (run cfg s es).slots[j]? = some sl2 → sl2.alive = false := by
  induction es generalizing s with
  | nil => exact hdead
  | cons e es ih =>
    intro sl2 h2
    cases e with
    | message i ok sf =>
      exact ih (stepMessage s i ok sf) (stepMessage_dead_at s i ok sf j hdead) sl2 h2
    | close i sf =>
      exact ih (stepClose cfg s i sf) (stepClose_dead_at cfg s i sf j hdead) sl2 h2


/-! ### At-most-once delivery of `onClose` per child -/

/-- Per-child soundness: `onClose` ran at most once, and not at all
while the `closed` flag is still clear. -/
def childOk (c : ChildRec) : Prop :=
  c.onCloseCalls ≤ 1 ∧ (c.closed = false → c.onCloseCalls = 0)

theorem onChildClosed_childOk (st : SlotChildren) (cid : Nat) (r : Bool)
    (h : ∀ c ∈ st.children, childOk c) :
    ∀ c ∈ (onChildClosed st cid r).children, childOk c := by
  rw [onChildClosed]
  cases hc : st.children[cid]? with
  | none => exact h
  | some c0 =>
    by_cases hguard : (!c0.closed && st.current == cid) = true
    · simp only [hguard, if_true]
      have hc0closed : c0.closed = false := by
        revert hguard
        cases c0.closed <;> simp
      have hc0zero : c0.onCloseCalls = 0 := (h c0 (List.getElem?_mem hc)).2 hc0closed
      have hset : ∀ c ∈ st.children.set cid
          ({ c0 with closed := true, onCloseCalls := c0.onCloseCalls + 1 }), childOk c := by
        intro c hmem
        rcases List.mem_or_eq_of_mem_set hmem with h1 | h1
        · exact h c h1
        · rw [h1]
          refine ⟨?_, fun hcl => ?_⟩
          · show c0.onCloseCalls + 1 ≤ 1
            omega
          · exact absurd (show (true : Bool) = false from hcl) (by decide)
      by_cases hr : r = true
      · simp only [hr, if_true]
        intro c hmem
        rcases List.mem_append.mp hmem with h1 | h1
        · obtain ⟨d, hd1, hd2⟩ := List.mem_map.mp h1
          rw [← hd2]
          exact ⟨(hset d hd1).1, (hset d hd1).2⟩
        · simp only [List.mem_singleton] at h1
          rw [h1]
          exact ⟨by decide, fun _ => rfl⟩
      · simp only [hr, Bool.false_eq_true, if_false]
        exact hset
    · have hg : (!c0.closed && st.current == cid) = false := by
        revert hguard
        cases (!c0.closed && st.current == cid) <;> simp
      simp only [hg, Bool.false_eq_true, if_false]
      exact h

theorem childStep_childOk (st : SlotChildren) (e : ChildEvent)
    (h : ∀ c ∈ st.children, childOk c) :
    ∀ c ∈ (childStep st e).children, childOk c := by
  cases e with
  | closeEvt cid r =>
    rw [childStep]
    cases hc : st.children[cid]? with
    | none => exact h
    | some c0 =>
      by_cases hrm : c0.removed = true
      · simp only [hrm, if_true]
        exact h
      · have hrm2 : c0.removed = false := by
          revert hrm
          cases c0.removed <;> simp
        simp only [hrm2, Bool.false_eq_true, if_false]
        exact onChildClosed_childOk st cid r h
  | disconnectOrExit cid =>
    rw [childStep]
    cases hc : st.children[cid]? with
    | none => exact h
    | some c0 =>
      by_cases hrm : c0.removed = true
      · simp only [hrm, if_true]
        exact h
      · have hrm2 : c0.removed = false := by
          revert hrm
          cases c0.removed <;> simp
        simp only [hrm2, Bool.false_eq_true, if_false]
        by_cases hguard : (!c0.closed && st.current == cid) = true
        · simp only [hguard, if_true]
          exact h
        · have hg : (!c0.closed && st.current == cid) = false := by
            revert hguard
            cases (!c0.closed && st.current == cid) <;> simp
          simp only [hg, Bool.false_eq_true, if_false]
          exact h
  | timerFires k r =>
    rw [childStep]
    cases hp : st.pendingTimeouts[k]? with
    | none => exact h
    | some cid =>
      exact onChildClosed_childOk _ cid r h
  | coordinatorRestart =>
    rw [childStep]
    intro c hmem
    rcases List.mem_append.mp hmem with h1 | h1
    · obtain ⟨d, hd1, hd2⟩ := List.mem_map.mp h1
      rw [← hd2]
      exact ⟨(h d hd1).1, (h d hd1).2⟩
    · simp only [List.mem_singleton] at h1
      rw [h1]
      exact ⟨by decide, fun _ => rfl⟩

theorem childRun_childOk (es : List ChildEvent) (st : SlotChildren)
    (h : ∀ c ∈ st.children, childOk c) :
    ∀ c ∈ (childRun st es).children, childOk c := by
  induction es generalizing st with
  | nil => exact h
  | cons e es ih => exact ih (childStep st e) (childStep_childOk st e h)


/-- A slot beyond the task count never receives a live child in the
startup loop. -/
theorem initState_slot_dead (total P j : Nat) (hj : total ≤ j) :
    ∀ sl, (initState total P).slots[j]? = some sl → sl.alive = false := by
  intro sl hsl
  rw [initState_eq] at hsl
  have hsl2 : ((List.range P).map (fun k =>
      if k < total then (⟨true, CrashRecoveryState.Normal, k⟩ : Slot)
      else ⟨false, CrashRecoveryState.Normal, 0⟩))[j]? = some sl := hsl
  rw [List.getElem?_map] at hsl2
  cases hr : (List.range P)[j]? with
  | none =>
    rw [hr] at hsl2
    cases hsl2
  | some v =>
    rw [hr] at hsl2
    have hsl3 : (if v < total then (⟨true, CrashRecoveryState.Normal, v⟩ : Slot)
        else ⟨false, CrashRecoveryState.Normal, 0⟩) = sl := Option.some.inj hsl2
    have hvj : total ≤ v := by
      have hjP : j < P := by
        by_contra hno
        rw [List.getElem?_eq_none (by simp; omega)] at hr
        cases hr
      rw [List.getElem?_range hjP] at hr
      have := Option.some.inj hr
      omega
    rw [← hsl3, if_neg (by omega)]

/-- A run of the dispatcher that can never resolve: the promise hangs. -/
def StuckRun (s : RunState) : Prop :=
  s.resolved = false ∧ ∀ (cfg : RunConfig) (es : List Event), run cfg s es = s

/-- C1: for every task count, every pool size `P ≥ 1`, every
configuration and every event schedule after which the run has resolved
normally, the first components of the recorded results — the task
indices accounted through `handleOutput` or `handleCrash` — are a
permutation of the full input index range: every task appears exactly
once in the final result set, never zero times and never twice,
regardless of completion order. -/
theorem claim_C1_exactly_once (total P : Nat) (cfg : RunConfig) (es : List Event)
    (hP : 1 ≤ P)
    (hres : (run cfg (initState total P) es).resolved = true) :
    ((run cfg (initState total P) es).results.map Prod.fst).Perm (List.range total) := by
  have inv := RunInv_run cfg (initState total P) es (initState_runInv total P hP)
  have htot : (run cfg (initState total P) es).total = total := by
    rw [run_total, initState_eq]
  obtain ⟨hnr, hpl⟩ := inv.res hres
  have hidx := inv.left_zero hnr hpl
  have hacc := inv.acc hnr
  have hlen0 := inv.left_eq hnr
  rw [hpl] at hlen0
  have hAT : aliveT (run cfg (initState total P) es).slots = [] := by
    cases h : aliveT (run cfg (initState total P) es).slots with
    | nil => rfl
    | cons a l =>
      rw [h, List.length_cons] at hlen0
      omega
  have hRem : remainingTasks (run cfg (initState total P) es) = [] := by
    rw [remainingTasks, hidx]
    simp
  rw [hAT, hRem, htot] at hacc
  simp only [Multiset.coe_nil, add_zero] at hacc
  exact Multiset.coe_eq_coe.mp hacc

/-- Witness for C1: two tasks on a one-slot pool, completing both. -/
theorem claim_C1_exactly_once_witness :
    1 ≤ 1 ∧
    (run ⟨true, 0, 4096⟩ (initState 2 1)
        [Event.message 0 true false, Event.message 0 true false]).resolved = true ∧
    ((run ⟨true, 0, 4096⟩ (initState 2 1)
        [Event.message 0 true false, Event.message 0 true false]).results.map Prod.fst).Perm
      (List.range 2) :=
  ⟨by decide, by decide,
    claim_C1_exactly_once 2 1 ⟨true, 0, 4096⟩
      [Event.message 0 true false, Event.message 0 true false] (by decide) (by decide)⟩

/-- C7: `fail` on a not-yet-rejected dispatcher marks it rejected, kills
every live child (every slot is left without a live child), performs
exactly one `reject` call (the reject counter increments by one, and a
second `fail` is a no-op), spawns nothing (the spawn counter is
unchanged), and afterwards no event schedule changes the state at all —
in particular no further worker process is ever spawned. -/
theorem claim_C7_fail_cleanup (cfg : RunConfig) (s : RunState) (es : List Event)
    (hrej : s.rejected = false) :
    (failRun s).rejected = true ∧
    (∀ sl ∈ (failRun s).slots, sl.alive = false) ∧
    (failRun s).errorCount = s.errorCount + 1 ∧
    (failRun s).spawnCount = s.spawnCount ∧
    failRun (failRun s) = failRun s ∧
    run cfg (failRun s) es = failRun s := by
  have hne : ¬ s.rejected = true := by
    rw [hrej]
    exact Bool.false_ne_true
  have hdead : ∀ sl ∈ (failRun s).slots, sl.alive = false := by
    rw [failRun, if_neg hne]
    intro sl hmem
    obtain ⟨d, _, hd⟩ := List.mem_map.mp hmem
    rw [← hd]
  have h1 : (failRun s).rejected = true := by rw [failRun, if_neg hne]
  refine ⟨h1, hdead, ?_, ?_, ?_, ?_⟩
  · rw [failRun, if_neg hne]
  · rw [failRun, if_neg hne]
  · nth_rewrite 1 [failRun]
    rw [if_pos h1]
  · exact run_of_dead cfg (failRun s) es hdead

/-- Witness for C7: failing a freshly started one-task pool. -/
theorem claim_C7_fail_cleanup_witness :
    (initState 1 1).rejected = false ∧
    (failRun (initState 1 1)).rejected = true ∧
    (failRun (initState 1 1)).errorCount = (initState 1 1).errorCount + 1 ∧
    (failRun (initState 1 1)).spawnCount = (initState 1 1).spawnCount ∧
    run ⟨true, 0, 4096⟩ (failRun (initState 1 1)) [Event.close 0 false] =
      failRun (initState 1 1) := by
  have h := claim_C7_fail_cleanup ⟨true, 0, 4096⟩ (initState 1 1)
    [Event.close 0 false] (by decide)
  exact ⟨by decide, h.1, h.2.2.1, h.2.2.2.1, h.2.2.2.2.2⟩

/-- C9, counterexample to the final clause: with zero tasks and a pool of
one, the startup loop retires the surplus slot (`processesLeft = 0`, no
slot holds a live child), yet completion is never signaled — the state is
stuck with the promise unresolved, because the startup loop decrements
`processesLeft` without ever checking it for zero, so `resolve` is never
called when there are no tasks at all. -/
theorem claim_C9_counterexample :
    (initState 0 1).processesLeft = 0 ∧
    (∀ sl ∈ (initState 0 1).slots, sl.alive = false) ∧
    StuckRun (initState 0 1) := by
  have hdead : ∀ sl ∈ (initState 0 1).slots, sl.alive = false := by decide
  exact ⟨by decide, hdead, by decide, fun cfg es => run_of_dead cfg _ es hdead⟩

/-- C9 (amended with `1 ≤ T`): for every pool size `P` exceeding the task
count `T ≥ 1`, only `T` worker slots ever start a process (`spawnCount =
T`), the surplus slots are immediately counted as retired
(`processesLeft = T` right after startup), a slot with no initial task
never holds a live child at any later point of any run, and completion
is still signaled when the active slots finish: some event schedule
resolves the promise. -/
theorem claim_C9_pool_clamping (total P : Nat) (hT : 1 ≤ total) (hPT : total < P) :
    (initState total P).spawnCount = total ∧
    (initState total P).processesLeft = total ∧
    (initState total P).slots.length = P ∧
    (∀ cfg es j, total ≤ j → ∀ sl2,
        (run cfg (initState total P) es).slots[j]? = some sl2 → sl2.alive = false) ∧
    (∀ cfg : RunConfig, ∃ es, (run cfg (initState total P) es).resolved = true) := by
  have hmin : min P total = total := by omega
  refine ⟨?_, ?_, ?_, ?_, ?_⟩
  · rw [initState_eq]
    show min P total = total
    omega
  · rw [initState_eq]
    show min P total = total
    omega
  · rw [initState_eq]
    simp
  · intro cfg es j hj
    exact run_dead_at cfg (initState total P) es j (initState_slot_dead total P j hj)
  · intro cfg
    have hinv := initState_runInv total P (by omega)
    have hAT := aliveT_initState total P
    exact completion_reachable cfg _ (initState total P) hinv (by rw [initState_eq])
      le_rfl (Or.inr (by rw [hAT, List.length_range]; omega))

/-- Witness for the amended C9: one task, two pool slots. -/
theorem claim_C9_pool_clamping_witness :
    1 ≤ 1 ∧ 1 < 2 ∧
    (initState 1 2).spawnCount = 1 ∧
    (initState 1 2).processesLeft = 1 ∧
    (∀ cfg : RunConfig, ∃ es, (run cfg (initState 1 2) es).resolved = true) := by
  have h := claim_C9_pool_clamping 1 2 (by decide) (by decide)
  exact ⟨by decide, by decide, h.1, h.2.1, h.2.2.2.2⟩

/-- C10: whatever lifecycle traffic a slot's children see — duplicate
`close` events, `disconnect`/`exit` listeners scheduling the delayed
`onChildClosed`, timeouts that survive listener removal, and
replacement children started for the slot — `onClose` runs at most once
on behalf of any given child, so one worker termination advances the
crash-recovery state machine by exactly one transition. -/
theorem claim_C10_onclose_at_most_once (es : List ChildEvent) (c : ChildRec)
    (hc : c ∈ (childRun initSlotChildren es).children) :
    c.onCloseCalls ≤ 1 := by
  refine (childRun_childOk es initSlotChildren ?_ c hc).1
  intro d hd
  have hd2 : d ∈ [({ closed := false, removed := false, onCloseCalls := 0 } : ChildRec)] := hd
  simp only [List.mem_singleton] at hd2
  rw [hd2]
  exact ⟨by decide, fun _ => rfl⟩

/-- Witness for C10: a child hit by two close events records one call. -/
theorem claim_C10_onclose_at_most_once_witness :
    (⟨true, false, 1⟩ : ChildRec) ∈ (childRun initSlotChildren
      [ChildEvent.closeEvt 0 false, ChildEvent.closeEvt 0 false]).children ∧
    (⟨true, false, 1⟩ : ChildRec).onCloseCalls ≤ 1 :=
  ⟨by decide, claim_C10_onclose_at_most_once
    [ChildEvent.closeEvt 0 false, ChildEvent.closeEvt 0 false] ⟨true, false, 1⟩ (by decide)⟩

/-! ## Claim theorems -/

/-- C2: with crash recovery enabled, the per-slot crash state evolves
exactly as the transition table states: a channel close without a result
takes `Normal` to `Retry` (restart with identical startup flags, resend
the same task); a second close takes `Retry` to `RetryWithMoreMemory`
if and only if the configured maximum-heap-size value is strictly less
than the ceiling (restarting with the heap flag removed and the ceiling
appended), and to `Crashed` otherwise; a close in `RetryWithMoreMemory`
goes to `Crashed`; and receiving a result in any state resets the state
to `Normal`. -/
theorem claim_C2_crash_recovery_transition_table
    (execArgv : List String) (ceiling : Int) (exhausted : Bool) :
    (onCloseReaction true execArgv ceiling exhausted CrashRecoveryState.Normal =
      ⟨.Retry, .Retry, .resumeSameArgs execArgv⟩) ∧
    ((getMaxOldSpaceSize execArgv).getD 0 < ceiling →
      onCloseReaction true execArgv ceiling exhausted CrashRecoveryState.Retry =
        ⟨.RetryWithMoreMemory, .RetryWithMoreMemory,
          .resumeWithMoreMemory (getExecArgvWithoutMaxOldSpaceSize execArgv ++
            ["--max_old_space_size=" ++ intToDecimal ceiling])⟩) ∧
    ((onCloseReaction true execArgv ceiling exhausted CrashRecoveryState.Retry).finalState =
        CrashRecoveryState.RetryWithMoreMemory ↔
      (getMaxOldSpaceSize execArgv).getD 0 < ceiling) ∧
    (¬ (getMaxOldSpaceSize execArgv).getD 0 < ceiling →
      (onCloseReaction true execArgv ceiling exhausted CrashRecoveryState.Retry).reported =
        CrashRecoveryState.Crashed) ∧
    ((onCloseReaction true execArgv ceiling exhausted
        CrashRecoveryState.RetryWithMoreMemory).reported = CrashRecoveryState.Crashed) ∧
    (∀ (s : RunState) (i : Nat) (ok spawnFails : Bool) (sl sl2 : Slot),
      s.slots[i]? = some sl → sl.alive = true →
      (stepMessage s i ok spawnFails).slots[i]? = some sl2 →
      sl2.recovery = CrashRecoveryState.Normal) := by
  by_cases hlt : (getMaxOldSpaceSize execArgv).getD 0 < ceiling <;>
    refine ⟨by simp [onCloseReaction, crashRecoveryTransition, hlt],
            by intro h; simp [onCloseReaction, crashRecoveryTransition, h],
            by simp [onCloseReaction, crashRecoveryTransition, hlt],
            by intro h; simp [onCloseReaction, crashRecoveryTransition, h],
            by simp [onCloseReaction, crashRecoveryTransition, hlt],
            fun s i ok spawnFails sl sl2 hsl ha h2 =>
              stepMessage_recovery_normal s i ok spawnFails sl hsl ha sl2 h2⟩

/-- C3: with crash recovery disabled, every channel close without a
result immediately yields `Crashed` — no identical-restart retry and no
memory-escalation retry (the action taken is to retire the slot or move
to the next task, never a resume) — and the crash callback installed by
`main` records the task as permanently failed. -/
theorem claim_C3_crash_recovery_disabled
    (maxHeap ceiling : Int) (execArgv : List String) (exhausted : Bool)
    (st : CrashRecoveryState) (path : String) (fs : List (String × String)) :
    crashRecoveryTransition false maxHeap ceiling st = CrashRecoveryState.Crashed ∧
    (onCloseReaction false execArgv ceiling exhausted st).reported =
      CrashRecoveryState.Crashed ∧
    ((onCloseReaction false execArgv ceiling exhausted st).action =
      if exhausted then CloseAction.stopDone else CloseAction.advanceNextTask execArgv) ∧
    handleCrashMain path CrashRecoveryState.Crashed fs = fs ++ [(path, "Out of memory")] := by
  refine ⟨rfl, ?_, ?_, rfl⟩ <;> simp [onCloseReaction, crashRecoveryTransition]

/-- C8: the run's overall result is 0 exactly when no task failed,
otherwise it equals the number of failing tasks; the error report
enumerates each failing task's identity with its recorded failure text;
and a fatal orchestrator error surfaces as the distinct caught-exception
exit code 1, not as a per-task failure count. -/
theorem claim_C8_exit_code_and_error_report (fs : List (String × String)) (err : String) :
    (mainReturnCode fs = 0 ↔ fs = []) ∧
    (fs ≠ [] → mainReturnCode fs = fs.length) ∧
    (∀ p e, (p, e) ∈ fs →
      ("Error in " ++ p) ∈ errorReportLines fs ∧ e ∈ errorReportLines fs) ∧
    processExitCode (Except.ok (mainReturnCode fs)) = mainReturnCode fs ∧
    processExitCode (Except.error err) = 1 := by
  refine ⟨?_, ?_, ?_, rfl, rfl⟩
  · constructor
    · intro h
      by_cases h0 : fs.length = 0
      · exact List.length_eq_zero.mp h0
      · rw [mainReturnCode, if_neg h0] at h
        exact absurd h h0
    · intro h
      subst h
      rfl
  · intro h
    rw [mainReturnCode]
    split
    · next h0 => exact absurd (List.length_eq_zero.mp h0) h
    · rfl
  · intro p e hmem
    constructor
    · exact List.mem_append_left _
        (List.mem_flatMap.mpr ⟨(p, e), hmem, by simp⟩)
    · exact List.mem_append_left _
        (List.mem_flatMap.mpr ⟨(p, e), hmem, by simp⟩)



/-- C5: for every task sequence, shard count >= 1 and shard id with
1 <= id <= count, the sharding function returns exactly the subsequence
of elements whose 0-based position in the original order satisfies
`position % count == id - 1`, preserving relative order (it is a total
function, hence pure, deterministic and never failing). -/
theorem claim_C5_shard_selection (tasks : List α) (id count : Nat)
    (h1 : 1 ≤ id) (h2 : id ≤ count) :
    testedPackages tasks id count =
      ((List.enum tasks).filter (fun q => q.fst % count == id - 1)).map Prod.snd ∧
    (testedPackages tasks id count).Sublist tasks := by
  have hc : count ≠ 0 := by omega
  constructor
  · rw [testedPackages, filterWithIndex_eq_enumFrom]
    have hpred : (fun q : Nat × α => shardPred id count q.fst) =
        (fun q : Nat × α => q.fst % count == id - 1) := by
      funext q
      simp [shardPred, hc]
    rw [hpred]
    rfl
  · exact filterWithIndex_sublist _ tasks 0

/-- C5 witness: a concrete instance of the shard characterization. -/
theorem claim_C5_shard_selection_witness :
    1 ≤ 2 ∧ 2 ≤ 2 ∧
    (testedPackages ["a", "b", "c", "d", "e"] 2 2 =
      ((List.enum ["a", "b", "c", "d", "e"]).filter
        (fun q => q.fst % 2 == 2 - 1)).map Prod.snd ∧
    (testedPackages ["a", "b", "c", "d", "e"] 2 2).Sublist ["a", "b", "c", "d", "e"]) :=
  ⟨by decide, by decide,
    claim_C5_shard_selection ["a", "b", "c", "d", "e"] 2 2 (by decide) (by decide)⟩

/-- C6: for every task sequence of length T and shard count >= 1, the
shards for ids 1..count joined together are a permutation of the
original sequence (no element duplicated across shards, none omitted),
and each shard is non-empty whenever count <= T. -/
theorem claim_C6_shards_partition (tasks : List α) (count : Nat) (hc : 1 ≤ count) :
    (((List.range count).map
      (fun j => testedPackages tasks (j + 1) count)).flatten).Perm tasks ∧
    (∀ id, 1 ≤ id → id ≤ count → count ≤ tasks.length →
      testedPackages tasks id count ≠ []) := by
  constructor
  · exact shards_join_perm count (by omega) tasks 0
  · intro id hid1 hid2 hlen
    refine filterWithIndex_ne_nil _ tasks 0 (id - 1) (by omega) ?_
    have hlt : id - 1 < count := by omega
    have hc0 : count ≠ 0 := by omega
    simp [shardPred, hc0, Nat.mod_eq_of_lt hlt]

/-- C6 witness: a concrete instance of the shard partition property. -/
theorem claim_C6_shards_partition_witness :
    1 ≤ 2 ∧
    ((((List.range 2).map
      (fun j => testedPackages ["a", "b", "c"] (j + 1) 2)).flatten).Perm ["a", "b", "c"] ∧
    (∀ id, 1 ≤ id → id ≤ 2 → 2 ≤ (["a", "b", "c"] : List String).length →
      testedPackages ["a", "b", "c"] id 2 ≠ [])) :=
  ⟨by decide, claim_C6_shards_partition ["a", "b", "c"] 2 (by decide)⟩



/-- C2 witness: the escalating retry at a concrete configuration (no
configured heap flag, ceiling 4096). -/
theorem claim_C2_crash_recovery_transition_table_witness :
    ((getMaxOldSpaceSize []).getD 0 < (4096 : Int)) ∧
    onCloseReaction true [] 4096 false CrashRecoveryState.Retry =
      ⟨.RetryWithMoreMemory, .RetryWithMoreMemory,
        .resumeWithMoreMemory (getExecArgvWithoutMaxOldSpaceSize [] ++
          ["--max_old_space_size=" ++ intToDecimal 4096])⟩ :=
  ⟨by decide,
    (claim_C2_crash_recovery_transition_table [] 4096 false).2.1 (by decide)⟩

/-- C8 witness: one failing task gives result 1 and an error report
containing its identity and text. -/
theorem claim_C8_exit_code_and_error_report_witness :
    ((("pkg", "boom") ∈ ([("pkg", "boom")] : List (String × String))) ∧
     ([("pkg", "boom")] : List (String × String)) ≠ []) ∧
    (mainReturnCode [("pkg", "boom")] = 1 ∧
     ("Error in " ++ "pkg") ∈ errorReportLines [("pkg", "boom")] ∧
     ("boom" : String) ∈ errorReportLines [("pkg", "boom")]) := by
  have h := claim_C8_exit_code_and_error_report [("pkg", "boom")] "fatal"
  refine ⟨⟨by simp, by simp⟩, ?_, (h.2.2.1 "pkg" "boom" (by simp)).1,
    (h.2.2.1 "pkg" "boom" (by simp)).2⟩
  simpa using h.2.1 (by simp)



/-- C4: the maximum-heap-size flag extraction recognizes both the
`--flag=value` and two-element `--flag value` forms; removal of zero
occurrences is the identity; a single occurrence of either form yields
the value `N` and a cleaned list with no occurrence of the flag;
removal eliminates all occurrences, so appending a new ceiling to the
cleaned list yields exactly one heap-size flag; and removal is
idempotent. -/
theorem claim_C4_flag_extraction_removal (argv pre post : List String) (n c : Nat)
    (hpre : ∀ s ∈ pre, maxOldSpaceSizeRegExpExec s = none)
    (hpost : ∀ s ∈ post, maxOldSpaceSizeRegExpExec s = none) :
    (getMaxOldSpaceSizeArg (pre ++ ("--max_old_space_size=" ++ natToDecimal n) :: post) =
      some ⟨pre.length, 1, some (n : Int)⟩) ∧
    (getMaxOldSpaceSizeArg (pre ++ "--max_old_space_size" :: natToDecimal n :: post) =
      some ⟨pre.length, 2, some (n : Int)⟩) ∧
    (getMaxOldSpaceSizeArg argv = none → getExecArgvWithoutMaxOldSpaceSize argv = argv) ∧
    (getExecArgvWithoutMaxOldSpaceSize
        (pre ++ ("--max_old_space_size=" ++ natToDecimal n) :: post) = pre ++ post) ∧
    (getExecArgvWithoutMaxOldSpaceSize
        (pre ++ "--max_old_space_size" :: natToDecimal n :: post) = pre ++ post) ∧
    (∀ s ∈ getExecArgvWithoutMaxOldSpaceSize argv, maxOldSpaceSizeRegExpExec s = none) ∧
    ((getExecArgvWithoutMaxOldSpaceSize argv ++
        ["--max_old_space_size=" ++ natToDecimal c]).countP
      (fun s => (maxOldSpaceSizeRegExpExec s).isSome) = 1) ∧
    (getExecArgvWithoutMaxOldSpaceSize (getExecArgvWithoutMaxOldSpaceSize argv) =
      getExecArgvWithoutMaxOldSpaceSize argv) :=
  ⟨getMaxOldSpaceSizeArg_eq_form pre hpre n post,
   getMaxOldSpaceSizeArg_two_form pre hpre n post,
   remove_of_none argv,
   remove_single_eq_form pre post hpre hpost n,
   remove_single_two_form pre post hpre hpost n,
   (getMaxOldSpaceSizeArgAux_eq_none_iff _ 0).mp (remove_no_match argv),
   countP_remove_append_ceiling argv c,
   remove_idem argv⟩

set_option maxHeartbeats 2000000 in
/-- C4 witness: a concrete extraction and removal instance. -/
theorem claim_C4_flag_extraction_removal_witness :
    (∀ s ∈ ["node"], maxOldSpaceSizeRegExpExec s = none) ∧
    (∀ s ∈ ["--x"], maxOldSpaceSizeRegExpExec s = none) ∧
    getMaxOldSpaceSizeArg (["node"] ++ ("--max_old_space_size=" ++ natToDecimal 2048) :: ["--x"]) =
      some ⟨1, 1, some (2048 : Int)⟩ ∧
    getExecArgvWithoutMaxOldSpaceSize
      (["node"] ++ ("--max_old_space_size=" ++ natToDecimal 2048) :: ["--x"]) =
      ["node"] ++ ["--x"] ∧
    ((getExecArgvWithoutMaxOldSpaceSize ["--max_old_space_size=100", "a"] ++
        ["--max_old_space_size=" ++ natToDecimal 4096]).countP
      (fun s => (maxOldSpaceSizeRegExpExec s).isSome) = 1) := by
  have h := claim_C4_flag_extraction_removal ["--max_old_space_size=100", "a"]
    ["node"] ["--x"] 2048 4096 (by decide) (by decide)
  exact ⟨by decide, by decide, h.1, h.2.2.2.1, h.2.2.2.2.2.2.1⟩


end DtslintRunner
